import Mathlib

/-!
# Push-button debouncing with a timer interrupt (MSP430F5528)

Shallow embedding of `main.c`: the global variables, the body of the
`while (1)` loop of `main` and the interrupt service routine `timer_isr`.

Integer widths are those of the MSP430 target: `int` is 16 bits, `long` is
32 bits, `uint8_t` is 8 bits.  Signed values are mathematical integers
reduced to their width explicitly (`wrapInt`, `wrapLong`).
-/

set_option maxRecDepth 100000

namespace Debounce

/-- Modelled from the spec: the low ("released") level of the input line.
`driverlib.h`, which defines `GPIO_INPUT_PIN_LOW`, is not among the sources;
the value is the one of TI's driverlib (`0x00`). -/
def GPIO_INPUT_PIN_LOW : Nat := 0

/-- Modelled from the spec: the high ("pressed") level of the input line.
`driverlib.h`, which defines `GPIO_INPUT_PIN_HIGH`, is not among the sources;
the value is the one of TI's driverlib (`0x01`). -/
def GPIO_INPUT_PIN_HIGH : Nat := 1

/-- Smallest value of the 16-bit `int`. -/
def INT_MIN : Int := -32768
/-- Largest value of the 16-bit `int`. -/
def INT_MAX : Int := 32767
/-- Smallest value of the 32-bit `long`. -/
def LONG_MIN : Int := -2147483648
/-- Largest value of the 32-bit `long`. -/
def LONG_MAX : Int := 2147483647

/-- Conversion of an integer value to the 16-bit `int` (two's complement,
the low 16 bits are kept): what `ldtime = count` does to the `long` value. -/
def wrapInt (x : Int) : Int := (x + 32768) % 65536 - 32768

/-- Reduction of an integer value to the 32-bit `long` (two's complement):
the result of `long` arithmetic on the target, which wraps around where the
exact result does not fit. -/
def wrapLong (x : Int) : Int := (x + 2147483648) % 4294967296 - 2147483648

/-- The global variables of `main.c` (lines 18-23), and `toggles`, the number
of calls of `GPIO_toggleOutputOnPin(GPIO_PORT_P4, GPIO_PIN2)` made so far. -/
structure State where
  /-- The `long count`, number of timer interrupts. -/
  count : Int
  /-- The `uint8_t reading`, last value read from pin 4.1. -/
  reading : Nat
  /-- The `uint8_t buttonstate`, present state of the button. -/
  buttonstate : Nat
  /-- The `uint8_t lastbuttonstate`, previous reading. -/
  lastbuttonstate : Nat
  /-- The `int ldtime`, last debounce time. -/
  ldtime : Int
  /-- The `int dtime`, debounce time. -/
  dtime : Int
  /-- Number of calls of `GPIO_toggleOutputOnPin` so far. -/
  toggles : Nat
deriving DecidableEq, Repr

/-- The values of the globals when `main` enters its loop (lines 18-23;
`reading` has no initialiser and is zero-initialised). -/
def boot : State :=
  { count := 0
    reading := 0
    buttonstate := GPIO_INPUT_PIN_LOW
    lastbuttonstate := GPIO_INPUT_PIN_LOW
    ldtime := 0
    dtime := 1
    toggles := 0 }

/-- One pass through the body of `while (1)` (lines 84-99); `pin` is the
value returned by `GPIO_getInputPinValue(GPIO_PORT_P4, GPIO_PIN1)`.  The pass
is one step: lines 88 and 90 read the same value of `count`, and the timer
interrupt is a step of its own (`timer_isr`).  In `count - ldtime` and in the
comparison with `dtime` the two `int` operands are converted to `long`. -/
def loopBody (s : State) (pin : Nat) : State :=
  -- reading = GPIO_getInputPinValue(GPIO_PORT_P4, GPIO_PIN1);
  let s1 : State := { s with reading := pin }
  -- if (lastbuttonstate != reading) ldtime = count;
  let s2 : State :=
    if s1.lastbuttonstate ≠ s1.reading then { s1 with ldtime := wrapInt s1.count } else s1
  -- if ((count - ldtime) > dtime)
  let s3 : State :=
    if wrapLong (s2.count - s2.ldtime) > s2.dtime then
      -- if (buttonstate != reading)
      if s2.buttonstate ≠ s2.reading then
        -- buttonstate = reading;
        let s2a : State := { s2 with buttonstate := s2.reading }
        -- if (buttonstate == GPIO_INPUT_PIN_HIGH) GPIO_toggleOutputOnPin(...);
        if s2a.buttonstate = GPIO_INPUT_PIN_HIGH then
          { s2a with toggles := s2a.toggles + 1 }
        else s2a
      else s2
    else s2
  -- lastbuttonstate = reading;
  { s3 with lastbuttonstate := s3.reading }

/-- The interrupt service routine `timer_isr` (lines 115-119): `count += 1`
in `long` arithmetic. -/
def timer_isr (s : State) : State :=
  { s with count := wrapLong (s.count + 1) }

/-- A sample: the value of `count` during one pass of the loop, and the value
read from the pin in that pass. -/
abbrev Sample := Int × Nat

/-- One loop iteration at which the tick counter holds `x.1` and the pin reads
`x.2`. -/
def iteration (s : State) (x : Sample) : State :=
  loopBody { s with count := x.1 } x.2

/-- The state after a sequence of loop iterations. -/
def run (s : State) (samples : List Sample) : State :=
  samples.foldl iteration s

/-- The states after each iteration of a run, in order. -/
def trace (s : State) : List Sample → List State
  | [] => []
  | x :: xs => iteration s x :: trace (iteration s x) xs

/-- A pin level: one of the two values `GPIO_getInputPinValue` returns. -/
def isLevel (v : Nat) : Prop := v = GPIO_INPUT_PIN_LOW ∨ v = GPIO_INPUT_PIN_HIGH

instance (v : Nat) : Decidable (isLevel v) := by unfold isLevel; infer_instance

/-- The value is representable in the 16-bit `int`. -/
def isInt (x : Int) : Prop := INT_MIN ≤ x ∧ x ≤ INT_MAX

instance (x : Int) : Decidable (isInt x) := by unfold isInt; infer_instance

/-- The value is representable in the 32-bit `long`. -/
def isLong (x : Int) : Prop := LONG_MIN ≤ x ∧ x ≤ LONG_MAX

instance (x : Int) : Decidable (isLong x) := by unfold isLong; infer_instance

/-- The test of line 90 as one iteration evaluates it at sample `x`: the
timestamp is the one left by lines 86-89 of the same iteration. -/
def elapsedOver (s : State) (x : Sample) : Prop :=
  wrapLong (x.1 - (if s.lastbuttonstate ≠ x.2 then wrapInt x.1 else s.ldtime)) > s.dtime

instance (s : State) (x : Sample) : Decidable (elapsedOver s x) := by
  unfold elapsedOver; infer_instance

/-- What happens between two observations of the program: a pass of the
main loop that reads `pin` from the input line, or a firing of the timer
interrupt. -/
inductive Event where
  | loop (pin : Nat)
  | tick
deriving DecidableEq, Repr

/-- Effect of one event on the globals. -/
def step (s : State) : Event → State
  | Event.loop pin => loopBody s pin
  | Event.tick => timer_isr s

/-- The state after a sequence of loop passes and timer interrupts. -/
def exec (s : State) (es : List Event) : State :=
  es.foldl step s

/-- The fields of `Timer_A_initUpModeParam` that `main` sets (lines 59-67).
The clock source is ACLK; the two interrupt enables, `timerClear` and
`startTimer` are flags. -/
structure Timer_A_initUpModeParam where
  /-- Prescaler applied to the clock source. -/
  clockSourceDivider : Nat
  /-- Number of timer counts in one period. -/
  timerPeriod : Nat
  /-- TAIE interrupt enable. -/
  timerInterruptEnable_TAIE : Bool
  /-- CCR0 interrupt enable. -/
  captureCompareInterruptEnable_CCR0_CCIE : Bool
  /-- Clear the timer on initialisation. -/
  timerClear : Bool
  /-- Start the timer on initialisation. -/
  startTimer : Bool
deriving DecidableEq, Repr

/-- The parameter object `main` passes to `Timer_A_initUpMode` (lines 59-67). -/
def param : Timer_A_initUpModeParam :=
  { clockSourceDivider := 1
    timerPeriod := 1500
    timerInterruptEnable_TAIE := false
    captureCompareInterruptEnable_CCR0_CCIE := true
    timerClear := true
    startTimer := true }

/-- Frequency of ACLK in Hz as the source comment documents it (line 53,
"ACLK - 32KHz"). -/
def ACLK_HZ : Nat := 32000

/-- Time in seconds between two CCR0 interrupts for a clock of `hz` Hz, by
the formula of the source comment (line 54, "time = 1500/32Khz"): the period
in timer counts over the frequency of the divided clock. -/
def interruptPeriod (p : Timer_A_initUpModeParam) (hz : Nat) : ℚ :=
  ((p.timerPeriod * p.clockSourceDivider : Nat) : ℚ) / (hz : ℚ)

/-- One iteration per tick with the pin held at `r`, for the `n` ticks that
start at tick `c`. -/
def holdTicks (r : Nat) (c : Int) : Nat → List Sample
  | 0 => []
  | n + 1 => (c, r) :: holdTicks r (c + 1) n

/-- From an iteration at tick `c` on, every iteration is at the tick of the
one before it or at the next tick. -/
def ticksFrom (c : Int) : List Sample → Bool
  | [] => true
  | x :: xs => (x.1 == c || x.1 == c + 1) && ticksFrom x.1 xs

/-- At least one iteration at every tick: the first iteration is at tick 0
and no tick is skipped afterwards. -/
def everyTick : List Sample → Bool
  | [] => true
  | x :: xs => x.1 == 0 && ticksFrom x.1 xs

/-- From an iteration at tick `c` on, the tick counter never goes back. -/
def nondecFrom (c : Int) : List Sample → Bool
  | [] => true
  | x :: xs => decide (c ≤ x.1) && nondecFrom x.1 xs

/-- The tick counter values of the samples are non-decreasing. -/
def nondecreasing : List Sample → Bool
  | [] => true
  | x :: xs => nondecFrom x.1 xs

/-- The noise hypothesis along a run that continues from state `s`: every
stretch of consecutive iterations whose reading differs from `buttonstate`
(as it is when the iteration starts) spans at most `dtime` ticks.  `start` is
the tick of the first iteration of the stretch the previous iteration belongs
to, if it belongs to one; each iteration of a stretch is checked against the
first, so the last one is. -/
def noiseOnly (s : State) (start : Option Int) : List Sample → Bool
  | [] => true
  | x :: xs =>
    if x.2 ≠ s.buttonstate then
      decide (x.1 - start.getD x.1 ≤ s.dtime) &&
        noiseOnly (iteration s x) (some (start.getD x.1)) xs
    else noiseOnly (iteration s x) none xs

/-- Invariant of a run under the noise hypothesis: nothing is confirmed, and
while the readings differ from `buttonstate` the timestamp lies between the
first tick of the stretch and the current tick. -/
def Quiet (s : State) (start : Option Int) : Prop :=
  s.buttonstate = GPIO_INPUT_PIN_LOW ∧ s.toggles = 0 ∧ s.dtime = 1 ∧
  (match start with
   | none => s.lastbuttonstate = GPIO_INPUT_PIN_LOW
   | some c0 => c0 ≤ s.ldtime ∧ s.ldtime ≤ s.count)

/-- The confirmation invariant of a run from boot: whenever `buttonstate`
changes in iteration `i`, some iteration `j ≤ i` starts a stretch of equal
readings that lasts up to `i` (its reading differs from the one before it, or
it is the first iteration), the readings of the stretch are the new
`buttonstate`, and more than `dtime` ticks lie between iterations `j` and
`i`. -/
def ConfirmedAfterWait (samples : List Sample) : Prop :=
  ∀ i, i < samples.length →
    (run boot (samples.take (i + 1))).buttonstate ≠ (run boot (samples.take i)).buttonstate →
    ∃ j, j ≤ i ∧
      (∀ k, j ≤ k → k ≤ i →
        (samples.getD k (0, 0)).2 = (run boot (samples.take (i + 1))).buttonstate) ∧
      (j = 0 ∨ (samples.getD (j - 1) (0, 0)).2 ≠ (samples.getD j (0, 0)).2) ∧
      (samples.getD i (0, 0)).1 - (samples.getD j (0, 0)).1 >
        (run boot (samples.take i)).dtime

/-- Second part of the confirmation invariant of a run from boot: within a
stretch of iterations `i..i2` with equal readings, `buttonstate` does not
change both in iteration `i` and in iteration `i2`. -/
def ChangesOncePerStretch (samples : List Sample) : Prop :=
  ∀ i i2, i < i2 → i2 < samples.length →
    (∀ k, i ≤ k → k ≤ i2 → (samples.getD k (0, 0)).2 = (samples.getD i (0, 0)).2) →
    (run boot (samples.take (i + 1))).buttonstate ≠ (run boot (samples.take i)).buttonstate →
    (run boot (samples.take (i2 + 1))).buttonstate = (run boot (samples.take i2)).buttonstate

/-- Invariant of a run in which the pin reads `old` before tick `T` and `new`
from tick `T` on, entered with `buttonstate = lastbuttonstate = old` and `n0`
toggles issued: before `T` nothing has moved; at ticks `T` and `T + 1` the
new level is pending since `T`; from tick `T + 2` on it is confirmed, with one
more toggle when it is a press. -/
def Settling (old new : Nat) (T : Int) (n0 : Nat) (s : State) : Prop :=
  s.dtime = 1 ∧
  (s.count < T →
    s.buttonstate = old ∧ s.lastbuttonstate = old ∧ s.toggles = n0) ∧
  (T ≤ s.count → s.count < T + 2 →
    s.buttonstate = old ∧ s.lastbuttonstate = new ∧ (new ≠ old → s.ldtime = T) ∧
      s.toggles = n0) ∧
  (T + 2 ≤ s.count →
    s.buttonstate = new ∧ s.lastbuttonstate = new ∧
      s.toggles = n0 + (if new ≠ old ∧ new = GPIO_INPUT_PIN_HIGH then 1 else 0))

/-- The value of `count - ldtime` that line 90 computes in the iteration at
sample `x`: a `long`, with the timestamp left by lines 86-89 of the same
iteration. -/
def elapsed (s : State) (x : Sample) : Int :=
  wrapLong (x.1 - (if s.lastbuttonstate ≠ x.2 then wrapInt x.1 else s.ldtime))

/-- Number of iterations of a run from state `s` in which `buttonstate`
changes from LOW to HIGH. -/
def risings (s : State) : List Sample → Nat
  | [] => 0
  | x :: xs =>
    (if s.buttonstate = GPIO_INPUT_PIN_LOW ∧
        (iteration s x).buttonstate = GPIO_INPUT_PIN_HIGH then 1 else 0) +
      risings (iteration s x) xs

/-- Bookkeeping of the debounce window on the events alone, without the
globals: the reading of the last loop pass (LOW before the first one) and the
number of timer interrupts since the window was last restarted.  A tick adds
one; a loop pass whose reading differs from the reading before it restarts
the window. -/
def windowStep (g : Nat × Nat) : Event → Nat × Nat
  | Event.loop pin => (pin, if pin ≠ g.1 then 0 else g.2)
  | Event.tick => (g.1, g.2 + 1)

/-- The true number of ticks elapsed since the loop pass that last restarted
the window, or since boot if none has, counted on the sequence of events. -/
def ticksSinceRestart (es : List Event) : Nat :=
  (es.foldl windowStep (GPIO_INPUT_PIN_LOW, 0)).2

/-! ## Basic facts about the integer conversions -/

theorem wrapInt_of_isInt {x : Int} (h : isInt x) : wrapInt x = x := by
  unfold isInt INT_MIN INT_MAX at h
  unfold wrapInt
  omega

theorem wrapLong_of_isLong {x : Int} (h : isLong x) : wrapLong x = x := by
  unfold isLong LONG_MIN LONG_MAX at h
  unfold wrapLong
  omega

theorem isInt_wrapInt (x : Int) : isInt (wrapInt x) := by
  unfold isInt INT_MIN INT_MAX wrapInt
  omega

theorem isLong_wrapLong (x : Int) : isLong (wrapLong x) := by
  unfold isLong LONG_MIN LONG_MAX wrapLong
  omega

/-! ## Field-by-field description of one iteration -/

theorem iteration_count (s : State) (x : Sample) : (iteration s x).count = x.1 := by
  unfold iteration loopBody
  dsimp only
  split_ifs <;> rfl

theorem iteration_dtime (s : State) (x : Sample) : (iteration s x).dtime = s.dtime := by
  unfold iteration loopBody
  dsimp only
  split_ifs <;> rfl

theorem iteration_reading (s : State) (x : Sample) : (iteration s x).reading = x.2 := by
  unfold iteration loopBody
  dsimp only
  split_ifs <;> rfl

theorem iteration_lastbuttonstate (s : State) (x : Sample) :
    (iteration s x).lastbuttonstate = x.2 := by
  unfold iteration loopBody
  dsimp only
  split_ifs <;> rfl

theorem iteration_ldtime (s : State) (x : Sample) :
    (iteration s x).ldtime = if s.lastbuttonstate ≠ x.2 then wrapInt x.1 else s.ldtime := by
  unfold iteration loopBody
  dsimp only
  split_ifs <;> rfl

theorem iteration_buttonstate (s : State) (x : Sample) :
    (iteration s x).buttonstate =
      if elapsedOver s x ∧ s.buttonstate ≠ x.2 then x.2 else s.buttonstate := by
  unfold elapsedOver iteration loopBody
  dsimp only
  split_ifs <;> simp_all

theorem iteration_toggles (s : State) (x : Sample) :
    (iteration s x).toggles =
      if elapsedOver s x ∧ s.buttonstate ≠ x.2 ∧ x.2 = GPIO_INPUT_PIN_HIGH
      then s.toggles + 1 else s.toggles := by
  unfold elapsedOver iteration loopBody
  dsimp only
  split_ifs <;> simp_all <;> omega

/-! ## Runs and traces -/

theorem run_nil (s : State) : run s [] = s := rfl

theorem run_cons (s : State) (x : Sample) (xs : List Sample) :
    run s (x :: xs) = run (iteration s x) xs := rfl

theorem run_append (s : State) (xs ys : List Sample) :
    run s (xs ++ ys) = run (run s xs) ys := by
  simp [run, List.foldl_append]

theorem trace_append (xs ys : List Sample) :
    ∀ s : State, trace s (xs ++ ys) = trace s xs ++ trace (run s xs) ys := by
  induction xs with
  | nil => intro s; rfl
  | cons x xs ih => intro s; simp [trace, run_cons, ih]

/-- An invariant that every iteration at the same or the next tick preserves
holds after every iteration of a run without skipped ticks. -/
theorem trace_invariant (Inv : State → Prop) (ok : Sample → Prop)
    (hstep : ∀ (s : State) (x : Sample), Inv s → (x.1 = s.count ∨ x.1 = s.count + 1) →
      ok x → Inv (iteration s x)) :
    ∀ (xs : List Sample) (s : State), Inv s → ticksFrom s.count xs = true →
      (∀ x ∈ xs, ok x) → ∀ st ∈ trace s xs, Inv st := by
  intro xs
  induction xs with
  | nil => intro s _ _ _ st hst; simp [trace] at hst
  | cons x xs ih =>
    intro s hs ht hok st hst
    simp only [ticksFrom, Bool.and_eq_true, Bool.or_eq_true, beq_iff_eq] at ht
    have hx : Inv (iteration s x) := hstep s x hs ht.1 (hok x (List.mem_cons_self _ _))
    simp only [trace, List.mem_cons] at hst
    rcases hst with rfl | hst
    · exact hx
    · refine ih (iteration s x) hx ?_ (fun y hy => hok y (List.mem_cons_of_mem _ hy)) st hst
      rw [iteration_count]
      exact ht.2

/-- One iteration at the same or the next tick preserves `Settling`, for a
change tick that an `int` can hold. -/
theorem settling_step (old new : Nat) (T : Int) (n0 : Nat) (hT : isInt T)
    (s : State) (x : Sample) (hs : Settling old new T n0 s)
    (hx : x.1 = s.count ∨ x.1 = s.count + 1)
    (hr : (x.1 < T → x.2 = old) ∧ (T ≤ x.1 → x.2 = new)) :
    Settling old new T n0 (iteration s x) := by
  obtain ⟨hd, hA, hB, hC⟩ := hs
  unfold isInt INT_MIN INT_MAX at hT
  unfold Settling
  rw [iteration_count, iteration_dtime, iteration_buttonstate, iteration_toggles,
    iteration_lastbuttonstate, iteration_ldtime]
  unfold elapsedOver
  simp only [hd]
  obtain ⟨c, r⟩ := x
  dsimp only at hx hr ⊢
  rcases lt_or_le c T with h1 | h1
  · -- still before the change
    have hs1 : s.count < T := by omega
    obtain ⟨hb, hl, ht⟩ := hA hs1
    have hrv : r = old := hr.1 h1
    subst hrv
    refine ⟨trivial, fun _ => ?_, fun h => absurd h1 (not_lt.mpr h), fun h => by omega⟩
    simp [hb, hl, ht]
  · have hrv : r = new := hr.2 h1
    subst hrv
    rcases lt_or_le c (T + 2) with h2 | h2
    · -- the new level is pending
      refine ⟨trivial, fun h => by omega, fun _ _ => ?_, fun h => by omega⟩
      rcases lt_or_le s.count T with h3 | h3
      · obtain ⟨hb, hl, ht⟩ := hA h3
        have hc : c = T := by omega
        subst hc
        by_cases hne : r = old
        · subst hne
          simp [hb, hl, ht]
        · have hw : wrapLong (c - wrapInt c) = 0 := by
            unfold wrapLong wrapInt
            omega
          have hne2 : ¬ old = r := fun h => hne h.symm
          simp [hb, hl, ht, hne, hne2, hw]
          unfold wrapInt
          omega
      · obtain ⟨hb, hl, hld, ht⟩ := hB h3 (by omega)
        by_cases hne : r = old
        · subst hne
          simp [hb, hl, ht]
        · have hw : ¬ (1 < wrapLong (c - T)) := by
            unfold wrapLong
            omega
          simp [hb, hl, ht, hne, hw, hld hne]
    · -- the new level is confirmed
      refine ⟨trivial, fun h => by omega, fun _ h => by omega, fun _ => ?_⟩
      rcases lt_or_le s.count (T + 2) with h3 | h3
      · obtain ⟨hb, hl, hld, ht⟩ := hB (by omega) h3
        by_cases hne : r = old
        · subst hne
          simp [hb, hl, ht]
        · have hw : 1 < wrapLong (c - T) := by
            unfold wrapLong
            omega
          have hne2 : ¬ old = r := fun h => hne h.symm
          simp [hb, hl, ht, hne, hne2, hw, hld hne]
          split_ifs <;> rfl
      · obtain ⟨hb, hl, ht⟩ := hC h3
        simp [hb, hl, ht]

/-- The tick counter value a state carries does not matter to the iterations
that follow: each of them reads its own. -/
theorem iteration_count_irrelevant (s : State) (c : Int) (x : Sample) :
    iteration { s with count := c } x = iteration s x := rfl

/-- An invariant that the first iteration at tick 0 establishes and every
later iteration preserves holds after every iteration of a run from boot with
at least one iteration at every tick. -/
theorem trace_invariant_boot (Inv : State → Prop) (ok : Sample → Prop)
    (hfirst : ∀ x : Sample, x.1 = 0 → ok x → Inv (iteration boot x))
    (hstep : ∀ (s : State) (x : Sample), Inv s → (x.1 = s.count ∨ x.1 = s.count + 1) →
      ok x → Inv (iteration s x))
    (samples : List Sample) (ht : everyTick samples = true) (hok : ∀ x ∈ samples, ok x) :
    ∀ st ∈ trace boot samples, Inv st := by
  cases samples with
  | nil => intro st hst; simp [trace] at hst
  | cons x xs =>
    simp only [everyTick, Bool.and_eq_true, beq_iff_eq] at ht
    have hx : Inv (iteration boot x) := hfirst x ht.1 (hok x (List.mem_cons_self _ _))
    intro st hst
    simp only [trace, List.mem_cons] at hst
    rcases hst with rfl | hst
    · exact hx
    · refine trace_invariant Inv ok hstep xs (iteration boot x) hx ?_
        (fun y hy => hok y (List.mem_cons_of_mem _ hy)) st hst
      rw [iteration_count]
      exact ht.2

/-- The first iteration of a run from boot at tick 0 establishes `Settling`
for a change of the pin from LOW at a tick `T ≥ 0`. -/
theorem settling_first (new : Nat) (T : Int) (hT0 : 0 ≤ T) (hT : isInt T) (x : Sample)
    (hx : x.1 = 0) (hr : (x.1 < T → x.2 = GPIO_INPUT_PIN_LOW) ∧ (T ≤ x.1 → x.2 = new)) :
    Settling GPIO_INPUT_PIN_LOW new T 0 (iteration boot x) := by
  rw [← iteration_count_irrelevant boot (-1) x]
  refine settling_step GPIO_INPUT_PIN_LOW new T 0 hT _ x ?_ (Or.inr (by simp [hx])) hr
  refine ⟨rfl, fun _ => ⟨rfl, rfl, rfl⟩, fun h => ?_, fun h => ?_⟩
  · exfalso
    have : (-1 : Int) < 0 := by decide
    exact absurd (lt_of_lt_of_le this hT0) (not_lt.mpr h)
  · exfalso
    have h' : T + 2 ≤ -1 := h
    omega

/-- Stability for change ticks an `int` can hold: in a run from boot with at
least one iteration at every tick whose pin reads LOW before tick `T` and
`new` from tick `T` on, with `0 ≤ T ≤ INT_MAX`, `buttonstate` is LOW with no
toggle after every iteration before tick `T + dtime + 1`, and is `new` after
every iteration from that tick on, with one toggle in all when `new` is
HIGH. -/
theorem stability_within_int_range (samples : List Sample) (T : Int) (new : Nat)
    (hT0 : 0 ≤ T) (hT : T ≤ INT_MAX) (ht : everyTick samples = true)
    (hr : ∀ x ∈ samples, (x.1 < T → x.2 = GPIO_INPUT_PIN_LOW) ∧ (T ≤ x.1 → x.2 = new)) :
    ∀ st ∈ trace boot samples,
      (st.count < T + st.dtime + 1 →
        st.buttonstate = GPIO_INPUT_PIN_LOW ∧ st.toggles = 0) ∧
      (T + st.dtime + 1 ≤ st.count →
        st.buttonstate = new ∧
          st.toggles = if new = GPIO_INPUT_PIN_HIGH then 1 else 0) := by
  have hTi : isInt T := by
    unfold isInt INT_MIN
    unfold INT_MAX at hT ⊢
    omega
  intro st hst
  have hinv := trace_invariant_boot (Settling GPIO_INPUT_PIN_LOW new T 0)
    (fun x => (x.1 < T → x.2 = GPIO_INPUT_PIN_LOW) ∧ (T ≤ x.1 → x.2 = new))
    (fun x hx hok => settling_first new T hT0 hTi x hx hok)
    (fun s x hs hx hok => settling_step GPIO_INPUT_PIN_LOW new T 0 hTi s x hs hx hok)
    samples ht hr st hst
  obtain ⟨hd, hA, hB, hC⟩ := hinv
  rw [hd]
  constructor
  · intro h
    rcases lt_or_le st.count T with h1 | h1
    · exact ⟨(hA h1).1, (hA h1).2.2⟩
    · have hb := hB h1 (by omega)
      exact ⟨hb.1, hb.2.2.2⟩
  · intro h
    have hc := hC (by omega)
    refine ⟨hc.1, ?_⟩
    rw [hc.2.2]
    unfold GPIO_INPUT_PIN_LOW GPIO_INPUT_PIN_HIGH
    by_cases hn : new = 1
    · simp [hn]
    · simp [hn]

/-- Witness of stability within the `int` range: LOW for ticks 0-5 and HIGH
for ticks 6-20 gives `buttonstate` HIGH first at tick 8, with the only toggle
of the run issued at tick 8. -/
theorem stability_within_int_range_witness :
    ∀ st ∈ trace boot (holdTicks GPIO_INPUT_PIN_LOW 0 6 ++ holdTicks GPIO_INPUT_PIN_HIGH 6 15),
      (st.count < 6 + st.dtime + 1 →
        st.buttonstate = GPIO_INPUT_PIN_LOW ∧ st.toggles = 0) ∧
      (6 + st.dtime + 1 ≤ st.count →
        st.buttonstate = GPIO_INPUT_PIN_HIGH ∧
          st.toggles = if GPIO_INPUT_PIN_HIGH = GPIO_INPUT_PIN_HIGH then 1 else 0) :=
  stability_within_int_range
    (holdTicks GPIO_INPUT_PIN_LOW 0 6 ++ holdTicks GPIO_INPUT_PIN_HIGH 6 15) 6
    GPIO_INPUT_PIN_HIGH (by decide) (by decide) (by decide) (by decide)

/-- C4. Pre-pressed at boot: in a run from boot with at least one iteration
at every tick and the pin HIGH at every iteration, `buttonstate` is LOW and
no toggle has been issued after every iteration before tick 2, and
`buttonstate` is HIGH and exactly one toggle has been issued after every
iteration from tick 2 on: the toggle is issued in the first iteration of tick
2 and none follows. -/
theorem pressed_at_boot (samples : List Sample) (ht : everyTick samples = true)
    (hr : ∀ x ∈ samples, x.2 = GPIO_INPUT_PIN_HIGH) :
    ∀ st ∈ trace boot samples,
      (st.count < 2 → st.buttonstate = GPIO_INPUT_PIN_LOW ∧ st.toggles = 0) ∧
      (2 ≤ st.count → st.buttonstate = GPIO_INPUT_PIN_HIGH ∧ st.toggles = 1) := by
  intro st hst
  have hinv := trace_invariant_boot
    (fun s => 0 ≤ s.count ∧ Settling GPIO_INPUT_PIN_LOW GPIO_INPUT_PIN_HIGH 0 0 s)
    (fun x => x.2 = GPIO_INPUT_PIN_HIGH)
    (fun x hx hok => ⟨by rw [iteration_count, hx],
      settling_first GPIO_INPUT_PIN_HIGH 0 (le_refl 0) (by decide) x hx
        ⟨fun h => by omega, fun _ => hok⟩⟩)
    (fun s x hs hx hok => ⟨by rw [iteration_count]; omega,
      settling_step GPIO_INPUT_PIN_LOW GPIO_INPUT_PIN_HIGH 0 0 (by decide) s x hs.2 hx
        ⟨fun h => by omega, fun _ => hok⟩⟩)
    samples ht hr st hst
  obtain ⟨h0, -, -, hB, hC⟩ := hinv
  constructor
  · intro h
    have hb := hB h0 (by omega)
    exact ⟨hb.1, hb.2.2.2⟩
  · intro h
    have hc := hC (by omega)
    refine ⟨hc.1, ?_⟩
    rw [hc.2.2]
    decide

/-- Witness of C4: one iteration per tick with the pin HIGH for ticks 0 to
10; the run ends with `buttonstate` HIGH and one toggle. -/
theorem pressed_at_boot_witness :
    (∀ st ∈ trace boot (holdTicks GPIO_INPUT_PIN_HIGH 0 11),
      (st.count < 2 → st.buttonstate = GPIO_INPUT_PIN_LOW ∧ st.toggles = 0) ∧
      (2 ≤ st.count → st.buttonstate = GPIO_INPUT_PIN_HIGH ∧ st.toggles = 1)) ∧
    (run boot (holdTicks GPIO_INPUT_PIN_HIGH 0 11)).count = 10 ∧
    (run boot (holdTicks GPIO_INPUT_PIN_HIGH 0 11)).toggles = 1 :=
  ⟨pressed_at_boot (holdTicks GPIO_INPUT_PIN_HIGH 0 11) (by decide) (by decide),
   by decide, by decide⟩

/-- C5, counterexample. With one iteration per tick, the pin HIGH for ticks 0
to 10 and LOW for ticks 11 to 13: `buttonstate` is LOW at the end, and the
run has issued one toggle, not zero. -/
theorem press_and_release_run_toggles_once :
    (run boot (holdTicks GPIO_INPUT_PIN_HIGH 0 11 ++
      holdTicks GPIO_INPUT_PIN_LOW 11 3)).buttonstate = GPIO_INPUT_PIN_LOW ∧
    ¬ (run boot (holdTicks GPIO_INPUT_PIN_HIGH 0 11 ++
      holdTicks GPIO_INPUT_PIN_LOW 11 3)).toggles = 0 := by
  decide

/-- C5, amended. In a run from boot with at least one iteration at every
tick, the pin HIGH at every iteration of ticks 0 to 10 and LOW at every
iteration from tick 11 on: `buttonstate` is LOW with no toggle before tick 2,
HIGH with exactly one toggle (the one of the press) at ticks 2 to 12, and LOW
from the first iteration of tick 13 on, still with exactly one toggle: the
release issues none. -/
theorem release_is_silent (samples : List Sample) (ht : everyTick samples = true)
    (hr : ∀ x ∈ samples, (x.1 ≤ 10 → x.2 = GPIO_INPUT_PIN_HIGH) ∧
      (11 ≤ x.1 → x.2 = GPIO_INPUT_PIN_LOW)) :
    ∀ st ∈ trace boot samples,
      (st.count < 2 → st.buttonstate = GPIO_INPUT_PIN_LOW ∧ st.toggles = 0) ∧
      (2 ≤ st.count → st.count < 13 →
        st.buttonstate = GPIO_INPUT_PIN_HIGH ∧ st.toggles = 1) ∧
      (13 ≤ st.count → st.buttonstate = GPIO_INPUT_PIN_LOW ∧ st.toggles = 1) := by
  intro st hst
  have key : ∀ s : State, Settling GPIO_INPUT_PIN_LOW GPIO_INPUT_PIN_HIGH 0 0 s →
      s.count = 10 → Settling GPIO_INPUT_PIN_HIGH GPIO_INPUT_PIN_LOW 11 1 s := by
    intro s hs h10
    obtain ⟨hd, -, -, hC⟩ := hs
    have hc := hC (by omega)
    refine ⟨hd, fun _ => ⟨hc.1, hc.2.1, ?_⟩, fun h => by omega, fun h => by omega⟩
    rw [hc.2.2]
    decide
  have hinv := trace_invariant_boot
    (fun s => 0 ≤ s.count ∧
      (s.count ≤ 10 → Settling GPIO_INPUT_PIN_LOW GPIO_INPUT_PIN_HIGH 0 0 s) ∧
      (10 ≤ s.count → Settling GPIO_INPUT_PIN_HIGH GPIO_INPUT_PIN_LOW 11 1 s))
    (fun x => (x.1 ≤ 10 → x.2 = GPIO_INPUT_PIN_HIGH) ∧ (11 ≤ x.1 → x.2 = GPIO_INPUT_PIN_LOW))
    (fun x hx hok => by
      have h1 : Settling GPIO_INPUT_PIN_LOW GPIO_INPUT_PIN_HIGH 0 0 (iteration boot x) :=
        settling_first GPIO_INPUT_PIN_HIGH 0 (le_refl 0) (by decide) x hx
          ⟨fun h => by omega, fun _ => hok.1 (by omega)⟩
      refine ⟨by rw [iteration_count, hx], fun _ => h1, fun h => ?_⟩
      rw [iteration_count] at h
      omega)
    (fun s x hs hx hok => by
      obtain ⟨h0, hS1, hS2⟩ := hs
      have hc : (iteration s x).count = x.1 := iteration_count s x
      rcases le_or_lt x.1 10 with h10 | h10
      · have h1 : Settling GPIO_INPUT_PIN_LOW GPIO_INPUT_PIN_HIGH 0 0 (iteration s x) :=
          settling_step GPIO_INPUT_PIN_LOW GPIO_INPUT_PIN_HIGH 0 0 (by decide) s x
            (hS1 (by omega)) hx ⟨fun h => by omega, fun _ => hok.1 h10⟩
        exact ⟨by omega, fun _ => h1, fun h => key _ h1 (by omega)⟩
      · have h2 : Settling GPIO_INPUT_PIN_HIGH GPIO_INPUT_PIN_LOW 11 1 (iteration s x) :=
          settling_step GPIO_INPUT_PIN_HIGH GPIO_INPUT_PIN_LOW 11 1 (by decide) s x
            (hS2 (by omega)) hx ⟨fun h => by omega, fun h => hok.2 h⟩
        exact ⟨by omega, fun h => by omega, fun _ => h2⟩)
    samples ht hr st hst
  obtain ⟨h0, hS1, hS2⟩ := hinv
  refine ⟨fun h => ?_, fun h h' => ?_, fun h => ?_⟩
  · obtain ⟨-, -, hB, -⟩ := hS1 (by omega)
    have hb := hB h0 (by omega)
    exact ⟨hb.1, hb.2.2.2⟩
  · rcases le_or_lt st.count 10 with h10 | h10
    · obtain ⟨-, -, -, hC⟩ := hS1 h10
      have hc := hC (by omega)
      refine ⟨hc.1, ?_⟩
      rw [hc.2.2]
      decide
    · obtain ⟨-, -, hB, -⟩ := hS2 (by omega)
      have hb := hB (by omega) (by omega)
      exact ⟨hb.1, hb.2.2.2⟩
  · obtain ⟨-, -, -, hC⟩ := hS2 (by omega)
    have hc := hC (by omega)
    refine ⟨hc.1, ?_⟩
    rw [hc.2.2]
    decide

/-- Witness of C5: one iteration per tick with the pin HIGH for ticks 0 to 10
and LOW for ticks 11 to 20; the run ends at tick 20 with `buttonstate` LOW. -/
theorem release_is_silent_witness :
    (∀ st ∈ trace boot (holdTicks GPIO_INPUT_PIN_HIGH 0 11 ++
        holdTicks GPIO_INPUT_PIN_LOW 11 10),
      (st.count < 2 → st.buttonstate = GPIO_INPUT_PIN_LOW ∧ st.toggles = 0) ∧
      (2 ≤ st.count → st.count < 13 →
        st.buttonstate = GPIO_INPUT_PIN_HIGH ∧ st.toggles = 1) ∧
      (13 ≤ st.count → st.buttonstate = GPIO_INPUT_PIN_LOW ∧ st.toggles = 1)) ∧
    (run boot (holdTicks GPIO_INPUT_PIN_HIGH 0 11 ++
        holdTicks GPIO_INPUT_PIN_LOW 11 10)).count = 20 ∧
    (run boot (holdTicks GPIO_INPUT_PIN_HIGH 0 11 ++
        holdTicks GPIO_INPUT_PIN_LOW 11 10)).buttonstate = GPIO_INPUT_PIN_LOW :=
  ⟨release_is_silent
      (holdTicks GPIO_INPUT_PIN_HIGH 0 11 ++ holdTicks GPIO_INPUT_PIN_LOW 11 10)
      (by decide) (by decide),
   by decide, by decide⟩

/-! ## Runs that hold the pin at a level -/

theorem holdTicks_succ (r : Nat) (c : Int) (n : Nat) :
    holdTicks r c (n + 1) = (c, r) :: holdTicks r (c + 1) n := rfl

theorem ticksFrom_cons (c : Int) (x : Sample) (xs : List Sample) :
    ticksFrom c (x :: xs) = ((x.1 == c || x.1 == c + 1) && ticksFrom x.1 xs) := rfl

theorem nondecFrom_cons (c : Int) (x : Sample) (xs : List Sample) :
    nondecFrom c (x :: xs) = (decide (c ≤ x.1) && nondecFrom x.1 xs) := rfl

theorem mem_holdTicks (r : Nat) (x : Sample) :
    ∀ (n : Nat) (c : Int), x ∈ holdTicks r c n → x.2 = r ∧ c ≤ x.1 ∧ x.1 < c + n := by
  intro n
  induction n with
  | zero => intro c h; simp [holdTicks] at h
  | succ n ih =>
    intro c h
    simp only [holdTicks, List.mem_cons] at h
    rcases h with rfl | h
    · refine ⟨rfl, le_refl _, ?_⟩
      push_cast
      omega
    · have := ih (c + 1) h
      refine ⟨this.1, by omega, ?_⟩
      push_cast
      omega

theorem ticksFrom_holdTicks (r : Nat) (tail : List Sample) :
    ∀ (n : Nat) (c : Int),
      ticksFrom c (holdTicks r (c + 1) n ++ tail) = ticksFrom (c + n) tail := by
  intro n
  induction n with
  | zero => intro c; simp [holdTicks]
  | succ n ih =>
    intro c
    rw [holdTicks_succ, List.cons_append, ticksFrom_cons]
    simp only [beq_self_eq_true, Bool.or_true, Bool.true_and]
    rw [ih (c + 1)]
    congr 1
    push_cast
    omega

theorem everyTick_holdTicks (r : Nat) (tail : List Sample) (n : Nat) :
    everyTick (holdTicks r 0 (n + 1) ++ tail) = ticksFrom n tail := by
  rw [holdTicks_succ, List.cons_append]
  simp only [everyTick, beq_self_eq_true, Bool.true_and]
  rw [ticksFrom_holdTicks r tail n 0]
  simp

theorem nondecFrom_holdTicks (r : Nat) (tail : List Sample) :
    ∀ (n : Nat) (c : Int),
      nondecFrom c (holdTicks r (c + 1) n ++ tail) = nondecFrom (c + n) tail := by
  intro n
  induction n with
  | zero => intro c; simp [holdTicks]
  | succ n ih =>
    intro c
    have hle : c ≤ c + 1 := by omega
    rw [holdTicks_succ, List.cons_append, nondecFrom_cons]
    simp only [hle, decide_True, Bool.true_and]
    rw [ih (c + 1)]
    congr 1
    push_cast
    omega

theorem nondecreasing_holdTicks (r : Nat) (tail : List Sample) (n : Nat) :
    nondecreasing (holdTicks r 0 (n + 1) ++ tail) = nondecFrom n tail := by
  rw [holdTicks_succ, List.cons_append]
  simp only [nondecreasing]
  rw [nondecFrom_holdTicks r tail n 0]
  simp

/-- An iteration that reads the level both `buttonstate` and
`lastbuttonstate` hold only records the tick and the reading. -/
theorem iteration_idle (v : Nat) (s : State) (c : Int)
    (hb : s.buttonstate = v) (hl : s.lastbuttonstate = v) :
    iteration s (c, v) = { s with count := c, reading := v } := by
  obtain ⟨sc, sr, sb, sl, sld, sd, st⟩ := s
  dsimp only at hb hl
  subst hb hl
  unfold iteration loopBody
  simp

theorem run_holdTicks_idle (v : Nat) :
    ∀ (n : Nat) (c : Int) (s : State), s.buttonstate = v → s.lastbuttonstate = v →
      run s (holdTicks v c (n + 1)) = { s with count := c + n, reading := v } := by
  intro n
  induction n with
  | zero =>
    intro c s hb hl
    simp [holdTicks, run_cons, run_nil, iteration_idle v s c hb hl]
  | succ n ih =>
    intro c s hb hl
    rw [holdTicks_succ, run_cons, iteration_idle v s c hb hl,
      ih (c + 1) { s with count := c, reading := v } hb hl]
    have : c + 1 + (n : Int) = c + ((n + 1 : Nat) : Int) := by
      push_cast
      omega
    simp [this]

/-- After one iteration per tick with the pin LOW for ticks 0 to 32767 from
boot, the globals are as at boot but for `count`. -/
theorem run_low_to_int_max :
    run boot (holdTicks GPIO_INPUT_PIN_LOW 0 32768) = { boot with count := 32767 } := by
  have h := run_holdTicks_idle GPIO_INPUT_PIN_LOW 32767 0 boot rfl rfl
  simpa [boot, GPIO_INPUT_PIN_LOW] using h

theorem noiseOnly_holdTicks_idle (v : Nat) (tail : List Sample) :
    ∀ (n : Nat) (c : Int) (s : State), s.buttonstate = v → s.lastbuttonstate = v →
      noiseOnly s none (holdTicks v c n ++ tail) =
        noiseOnly (run s (holdTicks v c n)) none tail := by
  intro n
  induction n with
  | zero => intro c s _ _; simp [holdTicks, run_nil]
  | succ n ih =>
    intro c s hb hl
    have hi := iteration_idle v s c hb hl
    rw [holdTicks_succ, List.cons_append, run_cons]
    simp only [noiseOnly, hb, ne_eq, not_true_eq_false, if_false]
    rw [hi]
    exact ih (c + 1) { s with count := c, reading := v } hb hl

theorem length_holdTicks (r : Nat) :
    ∀ (n : Nat) (c : Int), (holdTicks r c n).length = n := by
  intro n
  induction n with
  | zero => intro c; rfl
  | succ n ih => intro c; rw [holdTicks_succ, List.length_cons, ih]

theorem getD_holdTicks (r : Nat) (d : Sample) :
    ∀ (n : Nat) (c : Int) (k : Nat), k < n → (holdTicks r c n).getD k d = (c + k, r) := by
  intro n
  induction n with
  | zero => intro c k hk; omega
  | succ n ih =>
    intro c k hk
    rw [holdTicks_succ]
    cases k with
    | zero => simp
    | succ k =>
      rw [List.getD_cons_succ, ih (c + 1) k (by omega)]
      congr 1
      push_cast
      omega

/-! ## The timestamp is an `int`: runs that reach tick 32768 -/

/-- C1, failing run. One iteration per tick, the pin LOW for ticks 0 to 32767
and HIGH at tick 32768, so the signal changes at `T = 32768`: the run has an
iteration at every tick and its readings are LOW before `T` and HIGH from
`T` on, but after the iteration of tick 32768, which is before tick
`T + dtime + 1`, `buttonstate` is already HIGH and the toggle is issued. -/
theorem stability_fails_at_tick_32768 :
    everyTick (holdTicks GPIO_INPUT_PIN_LOW 0 32768 ++ [(32768, GPIO_INPUT_PIN_HIGH)]) = true ∧
    (∀ x ∈ holdTicks GPIO_INPUT_PIN_LOW 0 32768 ++ [(32768, GPIO_INPUT_PIN_HIGH)],
      (x.1 < 32768 → x.2 = GPIO_INPUT_PIN_LOW) ∧
      (32768 ≤ x.1 → x.2 = GPIO_INPUT_PIN_HIGH)) ∧
    ∃ st ∈ trace boot (holdTicks GPIO_INPUT_PIN_LOW 0 32768 ++ [(32768, GPIO_INPUT_PIN_HIGH)]),
      st.count < 32768 + st.dtime + 1 ∧
      st.buttonstate = GPIO_INPUT_PIN_HIGH ∧ st.toggles = 1 := by
  refine ⟨?_, ?_, ?_⟩
  · exact (everyTick_holdTicks GPIO_INPUT_PIN_LOW [(32768, GPIO_INPUT_PIN_HIGH)] 32767).trans
      (by decide)
  · intro x hx
    rcases List.mem_append.mp hx with h | h
    · have hm := mem_holdTicks GPIO_INPUT_PIN_LOW x 32768 0 h
      refine ⟨fun _ => hm.1, fun h' => ?_⟩
      have := hm.2.2
      norm_num at this
      omega
    · rw [List.mem_singleton] at h
      subst h
      exact ⟨fun h' => absurd h' (by decide), fun _ => rfl⟩
  · refine ⟨iteration { boot with count := 32767 } (32768, GPIO_INPUT_PIN_HIGH), ?_, ?_⟩
    · rw [trace_append, run_low_to_int_max]
      exact List.mem_append_right _ (List.mem_cons_self _ _)
    · decide

/-- C2, failing run. One iteration per tick, the pin LOW for ticks 0 to
32767, HIGH at tick 32768 only and LOW again at tick 32769: the counts are
non-decreasing values of a `long` and no stretch of readings that differ from
`buttonstate` spans more than `dtime` ticks, but `buttonstate` changes to HIGH
in the iteration of tick 32768 and the toggle is issued. -/
theorem blip_at_tick_32768_toggles :
    nondecreasing (holdTicks GPIO_INPUT_PIN_LOW 0 32768 ++
      [(32768, GPIO_INPUT_PIN_HIGH), (32769, GPIO_INPUT_PIN_LOW)]) = true ∧
    (∀ x ∈ holdTicks GPIO_INPUT_PIN_LOW 0 32768 ++
      [(32768, GPIO_INPUT_PIN_HIGH), (32769, GPIO_INPUT_PIN_LOW)], isLong x.1) ∧
    noiseOnly boot none (holdTicks GPIO_INPUT_PIN_LOW 0 32768 ++
      [(32768, GPIO_INPUT_PIN_HIGH), (32769, GPIO_INPUT_PIN_LOW)]) = true ∧
    (∃ st ∈ trace boot (holdTicks GPIO_INPUT_PIN_LOW 0 32768 ++
        [(32768, GPIO_INPUT_PIN_HIGH), (32769, GPIO_INPUT_PIN_LOW)]),
      st.count = 32768 ∧ st.buttonstate = GPIO_INPUT_PIN_HIGH ∧ st.toggles = 1) ∧
    (run boot (holdTicks GPIO_INPUT_PIN_LOW 0 32768 ++
      [(32768, GPIO_INPUT_PIN_HIGH), (32769, GPIO_INPUT_PIN_LOW)])).toggles = 1 := by
  refine ⟨?_, ?_, ?_, ?_, ?_⟩
  · exact (nondecreasing_holdTicks GPIO_INPUT_PIN_LOW
      [(32768, GPIO_INPUT_PIN_HIGH), (32769, GPIO_INPUT_PIN_LOW)] 32767).trans (by decide)
  · intro x hx
    rcases List.mem_append.mp hx with h | h
    · have hm := mem_holdTicks GPIO_INPUT_PIN_LOW x 32768 0 h
      have h2 := hm.2.2
      have h1 := hm.2.1
      norm_num at h2
      unfold isLong LONG_MIN LONG_MAX
      omega
    · simp only [List.mem_cons, List.mem_singleton, List.not_mem_nil, or_false] at h
      rcases h with rfl | rfl <;> decide
  · rw [noiseOnly_holdTicks_idle GPIO_INPUT_PIN_LOW _ 32768 0 boot rfl rfl, run_low_to_int_max]
    decide
  · refine ⟨iteration { boot with count := 32767 } (32768, GPIO_INPUT_PIN_HIGH), ?_, ?_⟩
    · rw [trace_append, run_low_to_int_max]
      exact List.mem_append_right _ (List.mem_cons_self _ _)
    · decide
  · rw [run_append, run_low_to_int_max]
    decide

/-- C6, failing run. One iteration per tick, the pin LOW for ticks 0 to 32767
and HIGH at tick 32768: `buttonstate` changes in the iteration of tick 32768,
the first one that reads HIGH, so no stretch of HIGH readings more than
`dtime` ticks long precedes the change. -/
theorem confirmation_without_wait_at_tick_32768 :
    nondecreasing (holdTicks GPIO_INPUT_PIN_LOW 0 32768 ++
      [(32768, GPIO_INPUT_PIN_HIGH)]) = true ∧
    ¬ ConfirmedAfterWait (holdTicks GPIO_INPUT_PIN_LOW 0 32768 ++
      [(32768, GPIO_INPUT_PIN_HIGH)]) := by
  refine ⟨(nondecreasing_holdTicks GPIO_INPUT_PIN_LOW
      [(32768, GPIO_INPUT_PIN_HIGH)] 32767).trans (by decide), ?_⟩
  intro h
  have hlen : (holdTicks GPIO_INPUT_PIN_LOW 0 32768).length = 32768 :=
    length_holdTicks GPIO_INPUT_PIN_LOW 32768 0
  have htake1 : (holdTicks GPIO_INPUT_PIN_LOW 0 32768 ++ [(32768, GPIO_INPUT_PIN_HIGH)]).take
      32768 = holdTicks GPIO_INPUT_PIN_LOW 0 32768 := List.take_left' hlen
  have hlen2 : (holdTicks GPIO_INPUT_PIN_LOW 0 32768 ++
      [(32768, GPIO_INPUT_PIN_HIGH)]).length = 32768 + 1 := by
    rw [List.length_append, hlen, List.length_singleton]
  have htake2 : (holdTicks GPIO_INPUT_PIN_LOW 0 32768 ++ [(32768, GPIO_INPUT_PIN_HIGH)]).take
      (32768 + 1) = holdTicks GPIO_INPUT_PIN_LOW 0 32768 ++ [(32768, GPIO_INPUT_PIN_HIGH)] := by
    have ht := List.take_length
      (holdTicks GPIO_INPUT_PIN_LOW 0 32768 ++ [(32768, GPIO_INPUT_PIN_HIGH)])
    rw [hlen2] at ht
    exact ht
  have hafter : (run boot (holdTicks GPIO_INPUT_PIN_LOW 0 32768 ++
      [(32768, GPIO_INPUT_PIN_HIGH)])).buttonstate = GPIO_INPUT_PIN_HIGH := by
    rw [run_append, run_low_to_int_max]
    decide
  have hlast : (holdTicks GPIO_INPUT_PIN_LOW 0 32768 ++ [(32768, GPIO_INPUT_PIN_HIGH)]).getD
      32768 (0, 0) = (32768, GPIO_INPUT_PIN_HIGH) := by
    rw [List.getD_append_right _ _ _ _ (by rw [hlen]), hlen]
    rfl
  obtain ⟨j, hj, hconst, -, hgap⟩ := h 32768 (by rw [hlen2]; exact Nat.lt_succ_self _) (by
    rw [htake2, htake1, hafter, run_low_to_int_max]
    decide)
  rw [htake2, hafter] at hconst
  rw [htake1, run_low_to_int_max, hlast] at hgap
  rcases Nat.lt_or_ge j 32768 with hlt | hge
  · have hk := hconst j (le_refl j) hj
    rw [List.getD_append _ _ _ _ (by rw [hlen]; exact hlt),
      getD_holdTicks GPIO_INPUT_PIN_LOW (0, 0) 32768 0 j hlt] at hk
    simp [GPIO_INPUT_PIN_LOW, GPIO_INPUT_PIN_HIGH] at hk
  · have hj' : j = 32768 := le_antisymm hj hge
    subst hj'
    rw [hlast] at hgap
    exact absurd hgap (by decide)

/-! ## Noise within the `int` range of the tick counter -/

theorem noiseOnly_cons (s : State) (start : Option Int) (x : Sample) (xs : List Sample) :
    noiseOnly s start (x :: xs) =
      if x.2 ≠ s.buttonstate then
        decide (x.1 - start.getD x.1 ≤ s.dtime) &&
          noiseOnly (iteration s x) (some (start.getD x.1)) xs
      else noiseOnly (iteration s x) none xs := rfl

/-- One iteration under the noise hypothesis, at a tick an `int` can hold and
not before the previous one, confirms nothing and preserves `Quiet`. -/
theorem quiet_step (s : State) (start : Option Int) (x : Sample) (hq : Quiet s start)
    (hc : s.count ≤ x.1) (hi : isInt x.1) :
    (x.2 ≠ s.buttonstate → x.1 - start.getD x.1 ≤ s.dtime →
      Quiet (iteration s x) (some (start.getD x.1))) ∧
    (x.2 = s.buttonstate → Quiet (iteration s x) none) := by
  obtain ⟨hb, ht, hd, hs⟩ := hq
  have hw : wrapInt x.1 = x.1 := wrapInt_of_isInt hi
  unfold isInt INT_MIN INT_MAX at hi
  unfold Quiet
  rw [iteration_buttonstate, iteration_toggles, iteration_dtime, iteration_lastbuttonstate,
    iteration_ldtime, iteration_count]
  unfold elapsedOver
  simp only [hw, hd, hb, ht]
  constructor
  · intro hne hspan
    have hne2 : ¬ GPIO_INPUT_PIN_LOW = x.2 := fun h => hne h.symm
    cases start with
    | none =>
      have hl : s.lastbuttonstate = GPIO_INPUT_PIN_LOW := hs
      have h0 : ¬ (1 < wrapLong 0) := by decide
      simp [hl, hne2, h0]
    | some c0 =>
      have hs' : c0 ≤ s.ldtime ∧ s.ldtime ≤ s.count := hs
      have hspan' : x.1 - c0 ≤ 1 := hspan
      by_cases hl : s.lastbuttonstate = x.2
      · have h0 : ¬ (wrapLong (x.1 - s.ldtime) > 1) := by
          unfold wrapLong
          omega
        simp only [hl, ne_eq, not_true_eq_false, if_false, h0, false_and, Option.getD_some]
        exact ⟨trivial, trivial, trivial, hs'.1, by omega⟩
      · have h0 : ¬ (wrapLong (x.1 - x.1) > 1) := by
          unfold wrapLong
          omega
        simp only [hl, ne_eq, not_false_eq_true, if_true, h0, false_and, if_false,
          Option.getD_some]
        exact ⟨trivial, trivial, trivial, by omega, le_refl _⟩
  · intro heq
    simp [heq]

/-- Under the noise hypothesis, with non-decreasing tick counter values that
an `int` can hold, no iteration changes `buttonstate` or toggles. -/
theorem quiet_trace :
    ∀ (xs : List Sample) (s : State) (start : Option Int), Quiet s start →
      nondecFrom s.count xs = true → (∀ x ∈ xs, isInt x.1) → noiseOnly s start xs = true →
      ∀ st ∈ trace s xs, st.buttonstate = GPIO_INPUT_PIN_LOW ∧ st.toggles = 0 := by
  intro xs
  induction xs with
  | nil => intro s start _ _ _ _ st hst; simp [trace] at hst
  | cons x xs ih =>
    intro s start hq hnd hint hnoise st hst
    rw [nondecFrom_cons] at hnd
    simp only [Bool.and_eq_true, decide_eq_true_eq] at hnd
    have hstep := quiet_step s start x hq hnd.1 (hint x (List.mem_cons_self _ _))
    have hnd' : nondecFrom (iteration s x).count xs = true := by
      rw [iteration_count]
      exact hnd.2
    have hint' : ∀ y ∈ xs, isInt y.1 := fun y hy => hint y (List.mem_cons_of_mem _ hy)
    rw [noiseOnly_cons] at hnoise
    simp only [trace, List.mem_cons] at hst
    by_cases hne : x.2 ≠ s.buttonstate
    · rw [if_pos hne] at hnoise
      simp only [Bool.and_eq_true, decide_eq_true_eq] at hnoise
      have hq' := hstep.1 hne hnoise.1
      rcases hst with rfl | hst
      · exact ⟨hq'.1, hq'.2.1⟩
      · exact ih _ _ hq' hnd' hint' hnoise.2 st hst
    · rw [if_neg hne] at hnoise
      have hq' := hstep.2 (not_not.mp hne)
      rcases hst with rfl | hst
      · exact ⟨hq'.1, hq'.2.1⟩
      · exact ih _ _ hq' hnd' hint' hnoise st hst

/-- No spurious toggles while the tick counter fits an `int`: in a run from
boot over samples with non-decreasing tick counter values between `INT_MIN`
and `INT_MAX`, if no stretch of consecutive iterations whose reading differs
from `buttonstate` spans more than `dtime` ticks, then `buttonstate` stays LOW
and no toggle is issued. -/
theorem no_spurious_toggles_within_int_range (samples : List Sample)
    (hnd : nondecreasing samples = true) (hint : ∀ x ∈ samples, isInt x.1)
    (hnoise : noiseOnly boot none samples = true) :
    ∀ st ∈ trace boot samples, st.buttonstate = GPIO_INPUT_PIN_LOW ∧ st.toggles = 0 := by
  cases samples with
  | nil => intro st hst; simp [trace] at hst
  | cons x xs =>
    have hq : Quiet { boot with count := x.1 } none := ⟨rfl, rfl, rfl, rfl⟩
    have hnd' : nondecFrom ({ boot with count := x.1 } : State).count (x :: xs) = true := by
      rw [nondecFrom_cons]
      simp only [nondecreasing] at hnd
      simp [hnd]
    exact quiet_trace (x :: xs) { boot with count := x.1 } none hq hnd' hint hnoise

/-- Witness of no spurious toggles: the pin LOW for ticks 0 to 2, HIGH at
tick 3 only, LOW for ticks 4 to 9; `buttonstate` never changes and no toggle
is issued. -/
theorem no_spurious_toggles_within_int_range_witness :
    ∀ st ∈ trace boot (holdTicks GPIO_INPUT_PIN_LOW 0 3 ++ holdTicks GPIO_INPUT_PIN_HIGH 3 1 ++
        holdTicks GPIO_INPUT_PIN_LOW 4 6),
      st.buttonstate = GPIO_INPUT_PIN_LOW ∧ st.toggles = 0 :=
  no_spurious_toggles_within_int_range
    (holdTicks GPIO_INPUT_PIN_LOW 0 3 ++ holdTicks GPIO_INPUT_PIN_HIGH 3 1 ++
      holdTicks GPIO_INPUT_PIN_LOW 4 6)
    (by decide) (by decide) (by decide)

/-! ## The confirmation invariant within the `int` range of the tick counter -/

theorem run_take_succ (s : State) (samples : List Sample) (i : Nat)
    (hi : i < samples.length) :
    run s (samples.take (i + 1)) = iteration (run s (samples.take i)) (samples.getD i (0, 0)) := by
  rw [List.take_succ, run_append, List.getElem?_eq_getElem hi, List.getD_eq_getElem _ _ hi]
  rfl

theorem run_dtime (samples : List Sample) : ∀ s : State, (run s samples).dtime = s.dtime := by
  induction samples with
  | nil => intro s; rfl
  | cons x xs ih => intro s; rw [run_cons, ih, iteration_dtime]

theorem isInt_getD (samples : List Sample) (hint : ∀ x ∈ samples, isInt x.1) (k : Nat)
    (hk : k < samples.length) : isInt (samples.getD k (0, 0)).1 := by
  rw [List.getD_eq_getElem _ _ hk]
  exact hint _ (List.getElem_mem hk)

theorem iteration_buttonstate_of_eq (s : State) (x : Sample) (h : s.buttonstate = x.2) :
    (iteration s x).buttonstate = x.2 := by
  rw [iteration_buttonstate, if_neg (fun hc => hc.2 h), h]

theorem iteration_buttonstate_of_not_elapsed (s : State) (x : Sample)
    (h : ¬ elapsedOver s x) : (iteration s x).buttonstate = s.buttonstate := by
  rw [iteration_buttonstate, if_neg (fun hc => h hc.1)]

theorem iteration_ldtime_of_ne (s : State) (x : Sample) (h : s.lastbuttonstate ≠ x.2) :
    (iteration s x).ldtime = wrapInt x.1 := by
  rw [iteration_ldtime, if_pos h]

theorem iteration_ldtime_of_eq (s : State) (x : Sample) (h : s.lastbuttonstate = x.2) :
    (iteration s x).ldtime = s.ldtime := by
  rw [iteration_ldtime, if_neg (not_not.mpr h)]

/-- At a tick an `int` can hold, an iteration whose reading differs from
`lastbuttonstate` finds no time elapsed. -/
theorem not_elapsed_of_restart (s : State) (x : Sample) (h : s.lastbuttonstate ≠ x.2)
    (hi : isInt x.1) (hd : s.dtime = 1) : ¬ elapsedOver s x := by
  unfold elapsedOver
  rw [if_pos h, wrapInt_of_isInt hi, sub_self, hd]
  decide

/-- After every iteration `i` of a run from boot whose tick counter values an
`int` can hold, the stretch of equal readings that ends at `i` starts at some
iteration `j`, `lastbuttonstate` holds that reading, and unless `buttonstate`
already equals it `ldtime` holds the tick of iteration `j`; if `buttonstate`
changes in iteration `i`, it changes to that reading and more than one tick
lies between iterations `j` and `i`. -/
theorem stretch_invariant (samples : List Sample) (hint : ∀ x ∈ samples, isInt x.1) :
    ∀ i, i < samples.length →
      ∃ j, j ≤ i ∧
        (∀ k, j ≤ k → k ≤ i → (samples.getD k (0, 0)).2 = (samples.getD i (0, 0)).2) ∧
        (j = 0 ∨ (samples.getD (j - 1) (0, 0)).2 ≠ (samples.getD j (0, 0)).2) ∧
        (run boot (samples.take (i + 1))).lastbuttonstate = (samples.getD i (0, 0)).2 ∧
        ((run boot (samples.take (i + 1))).ldtime = (samples.getD j (0, 0)).1 ∨
          (run boot (samples.take (i + 1))).buttonstate = (samples.getD i (0, 0)).2) ∧
        ((run boot (samples.take (i + 1))).buttonstate ≠
            (run boot (samples.take i)).buttonstate →
          (samples.getD i (0, 0)).1 - (samples.getD j (0, 0)).1 > 1 ∧
          (run boot (samples.take (i + 1))).buttonstate = (samples.getD i (0, 0)).2) := by
  intro i
  induction i with
  | zero =>
    intro hi
    have hc := isInt_getD samples hint 0 hi
    have hrun : run boot (samples.take 0) = boot := rfl
    rw [run_take_succ boot samples 0 hi, hrun]
    refine ⟨0, le_refl 0, ?_, Or.inl rfl, iteration_lastbuttonstate _ _, ?_, ?_⟩
    · intro k hk1 hk2
      have : k = 0 := by omega
      rw [this]
    · by_cases hr : boot.lastbuttonstate = (samples.getD 0 (0, 0)).2
      · exact Or.inr (iteration_buttonstate_of_eq _ _ hr)
      · exact Or.inl ((iteration_ldtime_of_ne _ _ hr).trans (wrapInt_of_isInt hc))
    · intro hch
      exfalso
      apply hch
      by_cases hr : boot.lastbuttonstate = (samples.getD 0 (0, 0)).2
      · exact (iteration_buttonstate_of_eq _ _ hr).trans hr.symm
      · exact iteration_buttonstate_of_not_elapsed _ _
          (not_elapsed_of_restart _ _ hr hc rfl)
  | succ i ih =>
    intro hi
    obtain ⟨j, hj, hconst, hfirst, hl, hld, -⟩ := ih (by omega)
    have hc := isInt_getD samples hint (i + 1) hi
    have hcj := isInt_getD samples hint j (by omega)
    have hd : (run boot (samples.take (i + 1))).dtime = 1 := run_dtime _ boot
    rw [run_take_succ boot samples (i + 1) hi]
    by_cases hr : (samples.getD (i + 1) (0, 0)).2 = (samples.getD i (0, 0)).2
    · -- the stretch goes on
      have hl2 : (run boot (samples.take (i + 1))).lastbuttonstate =
          (samples.getD (i + 1) (0, 0)).2 := by rw [hl, hr]
      refine ⟨j, by omega, ?_, hfirst, iteration_lastbuttonstate _ _, ?_, ?_⟩
      · intro k hk1 hk2
        rcases Nat.lt_or_ge k (i + 1) with hlt | hge
        · rw [hconst k hk1 (by omega), hr]
        · have : k = i + 1 := by omega
          rw [this]
      · rcases hld with hld | hbs
        · exact Or.inl ((iteration_ldtime_of_eq _ _ hl2).trans hld)
        · exact Or.inr (iteration_buttonstate_of_eq _ _ (hbs.trans hr.symm))
      · intro hch
        rw [iteration_buttonstate] at hch ⊢
        by_cases hcond : elapsedOver (run boot (samples.take (i + 1)))
            (samples.getD (i + 1) (0, 0)) ∧
            (run boot (samples.take (i + 1))).buttonstate ≠ (samples.getD (i + 1) (0, 0)).2
        · rw [if_pos hcond]
          refine ⟨?_, rfl⟩
          rcases hld with hld | hbs
          · have he := hcond.1
            unfold elapsedOver at he
            rw [if_neg (not_not.mpr hl2), hld, hd] at he
            unfold isInt INT_MIN INT_MAX at hc hcj
            unfold wrapLong at he
            omega
          · exact absurd (hbs.trans hr.symm) hcond.2
        · rw [if_neg hcond] at hch
          exact absurd rfl hch
    · -- a new stretch starts
      have hl2 : (run boot (samples.take (i + 1))).lastbuttonstate ≠
          (samples.getD (i + 1) (0, 0)).2 := by
        rw [hl]
        exact fun h => hr h.symm
      refine ⟨i + 1, le_refl _, ?_, Or.inr ?_, iteration_lastbuttonstate _ _, Or.inl ?_, ?_⟩
      · intro k hk1 hk2
        have : k = i + 1 := by omega
        rw [this]
      · rw [Nat.add_sub_cancel]
        exact fun h => hr h.symm
      · exact (iteration_ldtime_of_ne _ _ hl2).trans (wrapInt_of_isInt hc)
      · intro hch
        exfalso
        apply hch
        exact iteration_buttonstate_of_not_elapsed _ _ (not_elapsed_of_restart _ _ hl2 hc hd)

/-- Confirmation invariant while the tick counter fits an `int`: in a run
from boot over samples whose tick counter values lie between `INT_MIN` and
`INT_MAX`, `buttonstate` changes only after a stretch of equal readings, equal
to its new value, that has lasted for more than `dtime` ticks. -/
theorem confirmed_after_wait_within_int_range (samples : List Sample)
    (hint : ∀ x ∈ samples, isInt x.1) : ConfirmedAfterWait samples := by
  intro i hi hch
  obtain ⟨j, hj, hconst, hfirst, -, -, hgap⟩ := stretch_invariant samples hint i hi
  have hg := hgap hch
  refine ⟨j, hj, ?_, hfirst, ?_⟩
  · intro k hk1 hk2
    rw [hconst k hk1 hk2, hg.2]
  · rw [run_dtime _ boot]
    exact hg.1

/-- Witness of the confirmation invariant within the `int` range: the pin LOW
for ticks 0 to 2 and HIGH for ticks 3 to 7. -/
theorem confirmed_after_wait_within_int_range_witness :
    ConfirmedAfterWait (holdTicks GPIO_INPUT_PIN_LOW 0 3 ++ holdTicks GPIO_INPUT_PIN_HIGH 3 5) :=
  confirmed_after_wait_within_int_range
    (holdTicks GPIO_INPUT_PIN_LOW 0 3 ++ holdTicks GPIO_INPUT_PIN_HIGH 3 5) (by decide)

theorem iteration_buttonstate_changed (s : State) (x : Sample)
    (h : (iteration s x).buttonstate ≠ s.buttonstate) : (iteration s x).buttonstate = x.2 := by
  rw [iteration_buttonstate] at h ⊢
  by_cases hc : elapsedOver s x ∧ s.buttonstate ≠ x.2
  · rw [if_pos hc]
  · rw [if_neg hc] at h
    exact absurd rfl h

/-- In every run from boot, whatever the tick counter values, `buttonstate`
changes at most once during a stretch of iterations with equal readings. -/
theorem changes_once_per_stretch (samples : List Sample) : ChangesOncePerStretch samples := by
  intro i i2 hlt hi2 hconst hch
  have hi : i < samples.length := by omega
  have h1 : (run boot (samples.take (i + 1))).buttonstate = (samples.getD i (0, 0)).2 := by
    rw [run_take_succ boot samples i hi] at hch ⊢
    exact iteration_buttonstate_changed _ _ hch
  have key : ∀ n, i + 1 + n ≤ i2 + 1 →
      (run boot (samples.take (i + 1 + n))).buttonstate = (samples.getD i (0, 0)).2 := by
    intro n
    induction n with
    | zero => intro _; exact h1
    | succ n ih =>
      intro hn
      have hk : i + 1 + n < samples.length := by omega
      have hr := hconst (i + 1 + n) (by omega) (by omega)
      rw [show i + 1 + (n + 1) = (i + 1 + n) + 1 from rfl, run_take_succ boot samples _ hk,
        ← hr]
      exact iteration_buttonstate_of_eq _ _ ((ih (by omega)).trans hr.symm)
  have ha := key (i2 - i) (by omega)
  have hb := key (i2 - i - 1) (by omega)
  rw [show i + 1 + (i2 - i) = i2 + 1 by omega] at ha
  rw [show i + 1 + (i2 - i - 1) = i2 by omega] at hb
  rw [ha, hb]

/-! ## Toggles and pin levels -/

/-- From any state, an iteration with the pin at a level toggles once when
`buttonstate` becomes HIGH from another value, and not at all otherwise. -/
theorem toggles_iff_becomes_high (s : State) (x : Sample) (hr : isLevel x.2) :
    (iteration s x).toggles =
      if s.buttonstate ≠ GPIO_INPUT_PIN_HIGH ∧
          (iteration s x).buttonstate = GPIO_INPUT_PIN_HIGH
      then s.toggles + 1 else s.toggles := by
  rw [iteration_buttonstate, iteration_toggles]
  unfold isLevel GPIO_INPUT_PIN_LOW GPIO_INPUT_PIN_HIGH at *
  by_cases he : elapsedOver s x <;> rcases hr with hr | hr <;>
    by_cases hb : s.buttonstate = 1 <;> simp [he, hr, hb]
  by_cases h0 : s.buttonstate = 0 <;> simp [h0]

/-- In a run from boot whose readings are pin levels, `buttonstate` is a pin
level after every iteration. -/
theorem buttonstate_isLevel (samples : List Sample) (hr : ∀ x ∈ samples, isLevel x.2) :
    ∀ s : State, isLevel s.buttonstate → isLevel (run s samples).buttonstate := by
  induction samples with
  | nil => intro s hs; exact hs
  | cons x xs ih =>
    intro s hs
    rw [run_cons]
    refine ih (fun y hy => hr y (List.mem_cons_of_mem _ hy)) _ ?_
    rw [iteration_buttonstate]
    split_ifs
    · exact hr x (List.mem_cons_self _ _)
    · exact hs

/-! ## The timer interrupt and the tick counter -/

theorem loopBody_count (s : State) (pin : Nat) : (loopBody s pin).count = s.count := by
  unfold loopBody
  dsimp only
  split_ifs <;> rfl

theorem isLong_count_step (s : State) (e : Event) (h : isLong s.count) :
    isLong (step s e).count := by
  cases e with
  | loop pin => simpa [step, loopBody_count] using h
  | tick => exact isLong_wrapLong _

theorem isLong_count_exec (es : List Event) :
    ∀ s : State, isLong s.count → isLong (exec s es).count := by
  induction es with
  | nil => intro s h; simpa [exec] using h
  | cons e es ih =>
    intro s h
    have := ih (step s e) (isLong_count_step s e h)
    simpa [exec] using this

/-- C3. Toggle-on-press-only: one iteration with the pin at a level, from any
state, calls `GPIO_toggleOutputOnPin` once if `buttonstate` becomes HIGH in
that iteration and not at all otherwise; from a state whose `buttonstate` is a
pin level that is: once if `buttonstate` goes from LOW to HIGH, zero times
otherwise, and in particular zero times when it goes from HIGH to LOW. -/
theorem toggle_on_press_only (s : State) (x : Sample) (hr : isLevel x.2) :
    ((iteration s x).toggles =
      if s.buttonstate ≠ GPIO_INPUT_PIN_HIGH ∧
          (iteration s x).buttonstate = GPIO_INPUT_PIN_HIGH
      then s.toggles + 1 else s.toggles) ∧
    (isLevel s.buttonstate →
      ((s.buttonstate = GPIO_INPUT_PIN_LOW ∧
          (iteration s x).buttonstate = GPIO_INPUT_PIN_HIGH) →
        (iteration s x).toggles = s.toggles + 1) ∧
      (¬ (s.buttonstate = GPIO_INPUT_PIN_LOW ∧
          (iteration s x).buttonstate = GPIO_INPUT_PIN_HIGH) →
        (iteration s x).toggles = s.toggles) ∧
      ((s.buttonstate = GPIO_INPUT_PIN_HIGH ∧
          (iteration s x).buttonstate = GPIO_INPUT_PIN_LOW) →
        (iteration s x).toggles = s.toggles)) := by
  refine ⟨toggles_iff_becomes_high s x hr, fun hb => ?_⟩
  rw [iteration_buttonstate, iteration_toggles]
  unfold isLevel GPIO_INPUT_PIN_LOW GPIO_INPUT_PIN_HIGH at *
  by_cases he : elapsedOver s x <;> rcases hr with hr | hr <;> rcases hb with hb | hb <;>
    simp [he, hr, hb, GPIO_INPUT_PIN_LOW, GPIO_INPUT_PIN_HIGH]

/-- Witness of C3: at tick 2 a press held since boot is confirmed with one
toggle, and at tick 2 a release of a confirmed press is confirmed with no
toggle. -/
theorem toggle_on_press_only_witness :
    (iteration { boot with lastbuttonstate := 1 } (2, 1)).buttonstate = 1 ∧
    (iteration { boot with lastbuttonstate := 1 } (2, 1)).toggles = 1 ∧
    (iteration { boot with buttonstate := 1 } (2, 0)).buttonstate = 0 ∧
    (iteration { boot with buttonstate := 1 } (2, 0)).toggles = 0 :=
  ⟨by decide,
   ((toggle_on_press_only { boot with lastbuttonstate := 1 } (2, 1)
      (by decide)).2 (by decide)).1 (by decide),
   by decide,
   ((toggle_on_press_only { boot with buttonstate := 1 } (2, 0)
      (by decide)).2 (by decide)).2.2 (by decide)⟩

/-- C7. The interrupt routine adds one to `count` in 32-bit arithmetic: the
new value is a `long`, it is congruent to the old value plus one modulo
`2^32`, it is exactly the old value plus one below `LONG_MAX`; no other
global changes and no toggle is issued. -/
theorem timer_isr_increments_count_only (s : State) :
    isLong (timer_isr s).count ∧
    ((timer_isr s).count - (s.count + 1)) % 4294967296 = 0 ∧
    (isLong s.count → s.count < LONG_MAX → (timer_isr s).count = s.count + 1) ∧
    (timer_isr s).reading = s.reading ∧
    (timer_isr s).buttonstate = s.buttonstate ∧
    (timer_isr s).lastbuttonstate = s.lastbuttonstate ∧
    (timer_isr s).ldtime = s.ldtime ∧
    (timer_isr s).dtime = s.dtime ∧
    (timer_isr s).toggles = s.toggles := by
  refine ⟨isLong_wrapLong _, ?_, ?_, rfl, rfl, rfl, rfl, rfl, rfl⟩
  · show (wrapLong (s.count + 1) - (s.count + 1)) % 4294967296 = 0
    unfold wrapLong
    omega
  · intro h1 h2
    show wrapLong (s.count + 1) = s.count + 1
    unfold isLong LONG_MIN LONG_MAX at h1
    unfold LONG_MAX at h2
    unfold wrapLong
    omega

/-- Witness of C7: the interrupt that follows boot takes `count` from 0 to 1. -/
theorem timer_isr_increments_count_only_witness :
    (timer_isr boot).count = boot.count + 1 :=
  (timer_isr_increments_count_only boot).2.2.1 (by decide) (by decide)

/-- C8. In every sequence of loop passes and timer interrupts from boot, a
loop pass leaves `count` as it was, and no step decreases `count` as long as
`count` is below `LONG_MAX`. -/
theorem count_monotone (es : List Event) (e : Event) :
    (∀ pin : Nat, (step (exec boot es) (Event.loop pin)).count = (exec boot es).count) ∧
    ((exec boot es).count ≠ LONG_MAX → (exec boot es).count ≤ (step (exec boot es) e).count) := by
  refine ⟨fun pin => loopBody_count _ _, ?_⟩
  intro hmax
  have hl : isLong (exec boot es).count := isLong_count_exec es boot (by decide)
  cases e with
  | loop pin => exact le_of_eq (loopBody_count _ _).symm
  | tick =>
    show (exec boot es).count ≤ wrapLong ((exec boot es).count + 1)
    unfold isLong LONG_MIN LONG_MAX at hl
    unfold LONG_MAX at hmax
    unfold wrapLong
    omega

/-- Witness of C8: after a loop pass and two interrupts from boot `count` is
2, a further loop pass keeps it and a further interrupt does not decrease
it. -/
theorem count_monotone_witness :
    (exec boot [Event.loop 0, Event.tick, Event.tick]).count = 2 ∧
    (exec boot [Event.loop 0, Event.tick, Event.tick]).count ≤
      (step (exec boot [Event.loop 0, Event.tick, Event.tick]) Event.tick).count :=
  ⟨by decide,
   (count_monotone [Event.loop 0, Event.tick, Event.tick] Event.tick).2 (by decide)⟩

/-- C10. With the configuration `main` writes (period 1500 counts, divider 1)
and ACLK at the documented 32 kHz, two CCR0 interrupts are 3/64 s = 46.875 ms
apart, not 50 ms; 50 ms would need a period of 1600 counts.  At 32768 Hz, the
frequency of the usual ACLK crystal, the period is not 50 ms either. -/
theorem tick_period_is_not_50ms :
    interruptPeriod param ACLK_HZ = 46875 / 1000000 ∧
    interruptPeriod param ACLK_HZ ≠ 50 / 1000 ∧
    interruptPeriod { param with timerPeriod := 1600 } ACLK_HZ = 50 / 1000 ∧
    interruptPeriod param 32768 ≠ 50 / 1000 := by
  unfold interruptPeriod param ACLK_HZ
  norm_num

/-! ## One iteration: timestamp, window, guard, last observed level -/

theorem elapsedOver_iff (s : State) (x : Sample) :
    elapsedOver s x ↔ elapsed s x > s.dtime := Iff.rfl

theorem elapsed_eq (s : State) (x : Sample) :
    elapsed s x = wrapLong (x.1 - (iteration s x).ldtime) := by
  rw [iteration_ldtime]
  rfl

/-- C11, failing state. After one iteration per tick with the pin LOW for
ticks 0 to 32767, the iteration of tick 32768 reads HIGH, which differs from
`lastbuttonstate`; 32768 is a value of `long`, but `ldtime` is -32768 after
the iteration, not 32768. -/
theorem timestamp_truncated_at_tick_32768 :
    isLong 32768 ∧
    (run boot (holdTicks GPIO_INPUT_PIN_LOW 0 32768)).lastbuttonstate ≠ GPIO_INPUT_PIN_HIGH ∧
    (iteration (run boot (holdTicks GPIO_INPUT_PIN_LOW 0 32768))
      (32768, GPIO_INPUT_PIN_HIGH)).ldtime = -32768 ∧
    (iteration (run boot (holdTicks GPIO_INPUT_PIN_LOW 0 32768))
      (32768, GPIO_INPUT_PIN_HIGH)).ldtime ≠ 32768 := by
  rw [run_low_to_int_max]
  decide

/-- Candidate timestamp while the tick counter fits an `int`: from every
state, an iteration at a tick between `INT_MIN` and `INT_MAX` leaves that tick
in `ldtime` if the reading differs from `lastbuttonstate`, and leaves `ldtime`
as it was if the reading equals `lastbuttonstate` (the latter at any tick). -/
theorem timestamp_within_int_range (s : State) (x : Sample) :
    (isInt x.1 → s.lastbuttonstate ≠ x.2 → (iteration s x).ldtime = x.1) ∧
    (s.lastbuttonstate = x.2 → (iteration s x).ldtime = s.ldtime) :=
  ⟨fun hi h => (iteration_ldtime_of_ne s x h).trans (wrapInt_of_isInt hi),
   fun h => iteration_ldtime_of_eq s x h⟩

/-- Witness of the candidate timestamp within the `int` range: a press at
tick 6 after boot is stamped 6. -/
theorem timestamp_within_int_range_witness :
    (iteration boot (6, GPIO_INPUT_PIN_HIGH)).ldtime = 6 :=
  (timestamp_within_int_range boot (6, GPIO_INPUT_PIN_HIGH)).1 (by decide) (by decide)

/-- C12, failing state. After one iteration per tick with the pin LOW for
ticks 0 to 32767, the iteration of tick 32768 reads HIGH, which differs from
`lastbuttonstate`, so it restarts the window; line 90 then computes 65536,
not 0, and the same iteration changes `buttonstate` to HIGH and toggles. -/
theorem restart_confirms_at_tick_32768 :
    (run boot (holdTicks GPIO_INPUT_PIN_LOW 0 32768)).lastbuttonstate ≠ GPIO_INPUT_PIN_HIGH ∧
    elapsed (run boot (holdTicks GPIO_INPUT_PIN_LOW 0 32768))
      (32768, GPIO_INPUT_PIN_HIGH) = 65536 ∧
    (run boot (holdTicks GPIO_INPUT_PIN_LOW 0 32768)).buttonstate = GPIO_INPUT_PIN_LOW ∧
    (iteration (run boot (holdTicks GPIO_INPUT_PIN_LOW 0 32768))
      (32768, GPIO_INPUT_PIN_HIGH)).buttonstate = GPIO_INPUT_PIN_HIGH ∧
    (iteration (run boot (holdTicks GPIO_INPUT_PIN_LOW 0 32768))
      (32768, GPIO_INPUT_PIN_HIGH)).toggles =
      (run boot (holdTicks GPIO_INPUT_PIN_LOW 0 32768)).toggles + 1 := by
  rw [run_low_to_int_max]
  decide

/-- Window restart while the tick counter fits an `int`: from every state
with `dtime ≥ 0`, an iteration at a tick between `INT_MIN` and `INT_MAX` whose
reading differs from `lastbuttonstate` finds 0 ticks elapsed on line 90,
keeps `buttonstate` and does not toggle. -/
theorem window_restart_within_int_range (s : State) (x : Sample) (hi : isInt x.1)
    (hd : 0 ≤ s.dtime) (h : s.lastbuttonstate ≠ x.2) :
    elapsed s x = 0 ∧
    (iteration s x).buttonstate = s.buttonstate ∧
    (iteration s x).toggles = s.toggles := by
  have h0 : elapsed s x = 0 := by
    unfold elapsed
    rw [if_pos h, wrapInt_of_isInt hi, sub_self]
    decide
  have hne : ¬ elapsedOver s x := by
    rw [elapsedOver_iff, h0]
    exact not_lt.mpr hd
  refine ⟨h0, iteration_buttonstate_of_not_elapsed s x hne, ?_⟩
  rw [iteration_toggles, if_neg (fun hc => hne hc.1)]

/-- Witness of the window restart within the `int` range: a release seen at
tick 11 while `buttonstate` is HIGH changes nothing in that iteration. -/
theorem window_restart_within_int_range_witness :
    elapsed { boot with buttonstate := 1, lastbuttonstate := 1, toggles := 1 } (11, 0) = 0 ∧
    (iteration { boot with buttonstate := 1, lastbuttonstate := 1, toggles := 1 }
      (11, 0)).buttonstate = 1 ∧
    (iteration { boot with buttonstate := 1, lastbuttonstate := 1, toggles := 1 }
      (11, 0)).toggles = 1 :=
  window_restart_within_int_range
    { boot with buttonstate := 1, lastbuttonstate := 1, toggles := 1 } (11, 0)
    (by decide) (by decide) (by decide)

/-- C13. Confirmation guard: with `ldtime'` the timestamp after lines 86-89
of the iteration and `count - ldtime'` computed as a `long`, the iteration
sets `buttonstate` to the reading if `count - ldtime' > dtime` and the reading
differs from `buttonstate`, and leaves `buttonstate` as it was otherwise; the
`long` value is the exact difference whenever that fits a `long`; with
`dtime = 1` a difference of 1 does not confirm and a difference of 2 does. -/
theorem confirmation_guard (s : State) (x : Sample) :
    ((wrapLong (x.1 - (iteration s x).ldtime) > s.dtime ∧ x.2 ≠ s.buttonstate) →
      (iteration s x).buttonstate = x.2) ∧
    (¬ (wrapLong (x.1 - (iteration s x).ldtime) > s.dtime ∧ x.2 ≠ s.buttonstate) →
      (iteration s x).buttonstate = s.buttonstate) ∧
    (isLong (x.1 - (iteration s x).ldtime) →
      wrapLong (x.1 - (iteration s x).ldtime) = x.1 - (iteration s x).ldtime) ∧
    (s.dtime = 1 → x.1 - (iteration s x).ldtime = 1 →
      (iteration s x).buttonstate = s.buttonstate) ∧
    (s.dtime = 1 → x.1 - (iteration s x).ldtime = 2 →
      (iteration s x).buttonstate = x.2) := by
  have hc : elapsedOver s x ↔ wrapLong (x.1 - (iteration s x).ldtime) > s.dtime := by
    rw [elapsedOver_iff, elapsed_eq]
  refine ⟨?_, ?_, fun h => wrapLong_of_isLong h, ?_, ?_⟩
  · intro h
    rw [iteration_buttonstate, if_pos ⟨hc.mpr h.1, fun e => h.2 e.symm⟩]
  · intro h
    rw [iteration_buttonstate, if_neg (fun hg => h ⟨hc.mp hg.1, fun e => hg.2 e.symm⟩)]
  · intro hd h1
    have hne : ¬ elapsedOver s x := by
      rw [hc, h1, hd]
      decide
    exact iteration_buttonstate_of_not_elapsed s x hne
  · intro hd h2
    have he : elapsedOver s x := by
      rw [hc, h2, hd]
      decide
    by_cases hb : s.buttonstate = x.2
    · exact iteration_buttonstate_of_eq s x hb
    · rw [iteration_buttonstate, if_pos ⟨he, hb⟩]

/-- Witness of C13: with HIGH pending since tick 6, the iteration of tick 7
(1 tick elapsed) keeps `buttonstate` LOW and the iteration of tick 8 (2 ticks
elapsed) sets it to HIGH. -/
theorem confirmation_guard_witness :
    (iteration { boot with lastbuttonstate := 1, ldtime := 6 } (7, 1)).buttonstate = 0 ∧
    (iteration { boot with lastbuttonstate := 1, ldtime := 6 } (8, 1)).buttonstate = 1 ∧
    (iteration { boot with lastbuttonstate := 1, ldtime := 6 } (8, 1)).buttonstate = 1 :=
  ⟨(confirmation_guard { boot with lastbuttonstate := 1, ldtime := 6 } (7, 1)).2.2.2.1
      (by decide) (by decide),
   (confirmation_guard { boot with lastbuttonstate := 1, ldtime := 6 } (8, 1)).2.2.2.2
      (by decide) (by decide),
   (confirmation_guard { boot with lastbuttonstate := 1, ldtime := 6 } (8, 1)).1
      (by decide)⟩

/-- C14. Last observed level: after one pass of the loop body, from every
state and for every tick and reading, `lastbuttonstate` is the value just
read, which is also in `reading`, and `dtime` is unchanged. -/
theorem last_observed_level (s : State) (x : Sample) :
    (iteration s x).lastbuttonstate = x.2 ∧
    (iteration s x).reading = x.2 ∧
    (iteration s x).dtime = s.dtime ∧
    (loopBody s x.2).lastbuttonstate = x.2 ∧
    (loopBody s x.2).dtime = s.dtime :=
  ⟨iteration_lastbuttonstate s x, iteration_reading s x, iteration_dtime s x,
   iteration_lastbuttonstate { s with count := s.count } (s.count, x.2),
   iteration_dtime { s with count := s.count } (s.count, x.2)⟩

theorem State.eq_of_fields (a b : State) (h1 : a.count = b.count) (h2 : a.reading = b.reading)
    (h3 : a.buttonstate = b.buttonstate) (h4 : a.lastbuttonstate = b.lastbuttonstate)
    (h5 : a.ldtime = b.ldtime) (h6 : a.dtime = b.dtime) (h7 : a.toggles = b.toggles) :
    a = b := by
  cases a
  cases b
  simp only at h1 h2 h3 h4 h5 h6 h7
  subst h1 h2 h3 h4 h5 h6 h7
  rfl

/-- A second pass at the same tick with the same reading finds the guard of
lines 90-92 closed: either the first pass has set `buttonstate` to the
reading, or the same elapsed time fails the same test again. -/
theorem second_pass_idle (s : State) (x : Sample) :
    ¬ (elapsedOver (iteration s x) x ∧ (iteration s x).buttonstate ≠ x.2) := by
  intro h
  obtain ⟨he, hne⟩ := h
  have hsame : elapsedOver (iteration s x) x ↔ elapsedOver s x := by
    rw [elapsedOver_iff, elapsedOver_iff, elapsed_eq (iteration s x) x, elapsed_eq s x,
      iteration_ldtime_of_eq (iteration s x) x (iteration_lastbuttonstate s x),
      iteration_dtime]
  have he1 := hsame.mp he
  by_cases hb : s.buttonstate = x.2
  · exact hne (iteration_buttonstate_of_eq s x hb)
  · apply hne
    rw [iteration_buttonstate, if_pos ⟨he1, hb⟩]

/-- C15. Re-sampling is idempotent: from every state, a second pass of the
loop body at the same tick with the same reading changes nothing: the globals
and the number of toggles are those left by the first pass. -/
theorem resampling_idempotent (s : State) (x : Sample) :
    iteration (iteration s x) x = iteration s x ∧
    (iteration (iteration s x) x).buttonstate = (iteration s x).buttonstate ∧
    (iteration (iteration s x) x).lastbuttonstate = (iteration s x).lastbuttonstate ∧
    (iteration (iteration s x) x).ldtime = (iteration s x).ldtime ∧
    (iteration (iteration s x) x).toggles = (iteration s x).toggles := by
  have hidle := second_pass_idle s x
  have hb : (iteration (iteration s x) x).buttonstate = (iteration s x).buttonstate := by
    rw [iteration_buttonstate (iteration s x) x, if_neg hidle]
  have hl : (iteration (iteration s x) x).lastbuttonstate = (iteration s x).lastbuttonstate := by
    rw [iteration_lastbuttonstate, iteration_lastbuttonstate]
  have hld : (iteration (iteration s x) x).ldtime = (iteration s x).ldtime :=
    iteration_ldtime_of_eq (iteration s x) x (iteration_lastbuttonstate s x)
  have ht : (iteration (iteration s x) x).toggles = (iteration s x).toggles := by
    rw [iteration_toggles (iteration s x) x, if_neg (fun hc => hidle ⟨hc.1, hc.2.1⟩)]
  refine ⟨?_, hb, hl, hld, ht⟩
  refine State.eq_of_fields _ _ ?_ ?_ hb hl hld ?_ ht
  · rw [iteration_count, iteration_count]
  · rw [iteration_reading, iteration_reading]
  · rw [iteration_dtime]

/-! ## Toggles and confirmed presses along a run -/

theorem isLevel_iteration (s : State) (x : Sample) (hs : isLevel s.buttonstate)
    (hr : isLevel x.2) : isLevel (iteration s x).buttonstate := by
  rw [iteration_buttonstate]
  split_ifs
  · exact hr
  · exact hs

theorem toggles_eq_risings :
    ∀ (xs : List Sample) (s : State), (∀ x ∈ xs, isLevel x.2) → isLevel s.buttonstate →
      (run s xs).toggles = s.toggles + risings s xs := by
  intro xs
  induction xs with
  | nil => intro s _ _; rfl
  | cons x xs ih =>
    intro s hr hs
    have hx : isLevel x.2 := hr x (List.mem_cons_self _ _)
    rw [run_cons, ih (iteration s x) (fun y hy => hr y (List.mem_cons_of_mem _ hy))
      (isLevel_iteration s x hs hx), toggles_iff_becomes_high s x hx]
    have hiff : s.buttonstate ≠ GPIO_INPUT_PIN_HIGH ↔ s.buttonstate = GPIO_INPUT_PIN_LOW := by
      unfold isLevel GPIO_INPUT_PIN_LOW GPIO_INPUT_PIN_HIGH at *
      omega
    simp only [risings, hiff]
    split_ifs <;> omega

/-- An iteration issues no toggle or one. -/
theorem toggles_step (s : State) (x : Sample) :
    (iteration s x).toggles = s.toggles ∨ (iteration s x).toggles = s.toggles + 1 := by
  rw [iteration_toggles]
  split_ifs
  · exact Or.inr rfl
  · exact Or.inl rfl

/-- An iteration with the pin at a level that issues a toggle starts with
`buttonstate` other than HIGH and leaves it HIGH. -/
theorem rising_of_toggle (s : State) (x : Sample) (hr : isLevel x.2)
    (h : (iteration s x).toggles = s.toggles + 1) :
    s.buttonstate ≠ GPIO_INPUT_PIN_HIGH ∧ (iteration s x).buttonstate = GPIO_INPUT_PIN_HIGH := by
  have ht := toggles_iff_becomes_high s x hr
  by_cases hc : s.buttonstate ≠ GPIO_INPUT_PIN_HIGH ∧
      (iteration s x).buttonstate = GPIO_INPUT_PIN_HIGH
  · exact hc
  · rw [if_neg hc] at ht
    omega

/-- A sequence of values that holds `v` at `a` and another value at `a + n`
leaves `v` at some step in between. -/
theorem exists_fall (f : Nat → Nat) (v : Nat) :
    ∀ (n a : Nat), f a = v → f (a + n) ≠ v →
      ∃ k, a ≤ k ∧ k < a + n ∧ f k = v ∧ f (k + 1) ≠ v := by
  intro n
  induction n with
  | zero => intro a h1 h2; exact absurd h1 h2
  | succ n ih =>
    intro a h1 h2
    by_cases hm : f (a + n) = v
    · exact ⟨a + n, by omega, by omega, hm, h2⟩
    · obtain ⟨k, hk1, hk2, hk3, hk4⟩ := ih a h1 hm
      exact ⟨k, hk1, by omega, hk3, hk4⟩

/-- C16. Toggles alternate with confirmed releases: in every run from boot
with the pin at a level in every iteration, the number of toggles issued is
the number of iterations in which `buttonstate` changes from LOW to HIGH, an
iteration issues at most one toggle, and between two iterations that toggle
there is an iteration in which `buttonstate` changes from HIGH to LOW. -/
theorem toggles_alternate_with_releases (samples : List Sample)
    (hr : ∀ x ∈ samples, isLevel x.2) :
    (run boot samples).toggles = risings boot samples ∧
    (∀ i, i < samples.length →
      (run boot (samples.take (i + 1))).toggles = (run boot (samples.take i)).toggles ∨
      (run boot (samples.take (i + 1))).toggles = (run boot (samples.take i)).toggles + 1) ∧
    (∀ i i2, i < i2 → i2 < samples.length →
      (run boot (samples.take (i + 1))).toggles = (run boot (samples.take i)).toggles + 1 →
      (run boot (samples.take (i2 + 1))).toggles = (run boot (samples.take i2)).toggles + 1 →
      ∃ k, i < k ∧ k < i2 ∧
        (run boot (samples.take k)).buttonstate = GPIO_INPUT_PIN_HIGH ∧
        (run boot (samples.take (k + 1))).buttonstate = GPIO_INPUT_PIN_LOW) := by
  have hlev : ∀ k, k < samples.length → isLevel (samples.getD k (0, 0)).2 := by
    intro k hk
    rw [List.getD_eq_getElem _ _ hk]
    exact hr _ (List.getElem_mem hk)
  refine ⟨?_, ?_, ?_⟩
  · have h := toggles_eq_risings samples boot hr (Or.inl rfl)
    rw [h]
    exact Nat.zero_add _
  · intro i hi
    rw [run_take_succ boot samples i hi]
    exact toggles_step _ _
  · intro i i2 hlt hi2 ht1 ht2
    have hi : i < samples.length := by omega
    rw [run_take_succ boot samples i hi] at ht1
    rw [run_take_succ boot samples i2 hi2] at ht2
    have h1 := (rising_of_toggle _ _ (hlev i hi) ht1).2
    have h2 := (rising_of_toggle _ _ (hlev i2 hi2) ht2).1
    rw [← run_take_succ boot samples i hi] at h1
    have hfall := exists_fall (fun m => (run boot (samples.take m)).buttonstate)
      GPIO_INPUT_PIN_HIGH (i2 - (i + 1)) (i + 1) h1 (by
        rw [show i + 1 + (i2 - (i + 1)) = i2 by omega]
        exact h2)
    obtain ⟨k, hk1, hk2, hk3, hk4⟩ := hfall
    refine ⟨k, by omega, by omega, hk3, ?_⟩
    have hl : isLevel (run boot (samples.take (k + 1))).buttonstate :=
      buttonstate_isLevel _ (fun y hy => hr y (List.mem_of_mem_take hy)) boot (Or.inl rfl)
    rcases hl with hl | hl
    · exact hl
    · exact absurd hl hk4

/-- Witness of C16: two presses with a release between them, each held for
four ticks; the run issues two toggles, the iterations of ticks 2 and 10
toggle, and `buttonstate` goes from HIGH to LOW in the iteration of tick 6
between them. -/
theorem toggles_alternate_with_releases_witness :
    (run boot (holdTicks GPIO_INPUT_PIN_HIGH 0 4 ++ holdTicks GPIO_INPUT_PIN_LOW 4 4 ++
      holdTicks GPIO_INPUT_PIN_HIGH 8 4)).toggles = 2 ∧
    risings boot (holdTicks GPIO_INPUT_PIN_HIGH 0 4 ++ holdTicks GPIO_INPUT_PIN_LOW 4 4 ++
      holdTicks GPIO_INPUT_PIN_HIGH 8 4) = 2 ∧
    ∃ k, 2 < k ∧ k < 10 ∧
      (run boot ((holdTicks GPIO_INPUT_PIN_HIGH 0 4 ++ holdTicks GPIO_INPUT_PIN_LOW 4 4 ++
        holdTicks GPIO_INPUT_PIN_HIGH 8 4).take k)).buttonstate = GPIO_INPUT_PIN_HIGH ∧
      (run boot ((holdTicks GPIO_INPUT_PIN_HIGH 0 4 ++ holdTicks GPIO_INPUT_PIN_LOW 4 4 ++
        holdTicks GPIO_INPUT_PIN_HIGH 8 4).take (k + 1))).buttonstate = GPIO_INPUT_PIN_LOW :=
  ⟨by decide,
   ((toggles_alternate_with_releases
      (holdTicks GPIO_INPUT_PIN_HIGH 0 4 ++ holdTicks GPIO_INPUT_PIN_LOW 4 4 ++
        holdTicks GPIO_INPUT_PIN_HIGH 8 4) (by decide)).1).symm.trans (by decide),
   (toggles_alternate_with_releases
      (holdTicks GPIO_INPUT_PIN_HIGH 0 4 ++ holdTicks GPIO_INPUT_PIN_LOW 4 4 ++
        holdTicks GPIO_INPUT_PIN_HIGH 8 4) (by decide)).2.2 2 10 (by decide) (by decide)
      (by decide) (by decide)⟩

/-! ## Elapsed time while the tick counter fits an `int` -/

theorem exec_snoc (s : State) (es : List Event) (e : Event) :
    exec s (es ++ [e]) = step (exec s es) e := by
  simp [exec, List.foldl_append]

theorem ticksSinceRestart_snoc_loop (es : List Event) (pin : Nat) :
    ticksSinceRestart (es ++ [Event.loop pin]) =
      if pin ≠ (es.foldl windowStep (GPIO_INPUT_PIN_LOW, 0)).1 then 0
      else ticksSinceRestart es := by
  simp [ticksSinceRestart, List.foldl_append, windowStep]

theorem loopBody_eq_iteration (s : State) (pin : Nat) :
    loopBody s pin = iteration s (s.count, pin) := rfl

/-- In a run of loop passes and timer interrupts from boot in which `count`
never exceeds `INT_MAX`: `count` is not negative, `ldtime` lies between 0 and
`count`, `lastbuttonstate` is the reading of the last loop pass, and
`count - ldtime` is the number of ticks since the window was last
restarted. -/
theorem window_invariant (es : List Event) :
    (∀ n, (exec boot (es.take n)).count ≤ INT_MAX) →
      0 ≤ (exec boot es).ldtime ∧ (exec boot es).ldtime ≤ (exec boot es).count ∧
      (exec boot es).count ≤ INT_MAX ∧
      (exec boot es).lastbuttonstate = (es.foldl windowStep (GPIO_INPUT_PIN_LOW, 0)).1 ∧
      (exec boot es).count - (exec boot es).ldtime = (ticksSinceRestart es : Int) := by
  induction es using List.reverseRecOn with
  | nil =>
    intro _
    exact ⟨le_refl _, le_refl _, by decide, rfl, rfl⟩
  | append_singleton es e ih =>
    intro h
    have hpre : ∀ n, (exec boot (es.take n)).count ≤ INT_MAX := by
      intro n
      rcases Nat.le_total n es.length with hn | hn
      · have := h n
        rwa [List.take_append_of_le_length hn] at this
      · have := h es.length
        rwa [List.take_left, ← List.take_of_length_le hn] at this
    have hfull : (exec boot (es ++ [e])).count ≤ INT_MAX := by
      have := h (es ++ [e]).length
      rwa [List.take_length] at this
    obtain ⟨h0, h1, h2, h3, h4⟩ := ih hpre
    rw [exec_snoc] at hfull ⊢
    unfold INT_MAX at h2 hfull ⊢
    cases e with
    | loop pin =>
      show 0 ≤ (loopBody (exec boot es) pin).ldtime ∧
        (loopBody (exec boot es) pin).ldtime ≤ (loopBody (exec boot es) pin).count ∧
        (loopBody (exec boot es) pin).count ≤ 32767 ∧
        (loopBody (exec boot es) pin).lastbuttonstate =
          ((es ++ [Event.loop pin]).foldl windowStep (GPIO_INPUT_PIN_LOW, 0)).1 ∧
        (loopBody (exec boot es) pin).count - (loopBody (exec boot es) pin).ldtime =
          (ticksSinceRestart (es ++ [Event.loop pin]) : Int)
      rw [ticksSinceRestart_snoc_loop, loopBody_eq_iteration, iteration_count,
        iteration_lastbuttonstate, iteration_ldtime, ← h3]
      have hw : wrapInt (exec boot es).count = (exec boot es).count := by
        unfold wrapInt
        omega
      refine ⟨?_, ?_, h2, ?_, ?_⟩
      · split_ifs
        · rw [hw]; omega
        · exact h0
      · split_ifs
        · rw [hw]
        · exact h1
      · simp [List.foldl_append, windowStep]
      · by_cases hne : (exec boot es).lastbuttonstate = pin
        · have hne2 : ¬ pin ≠ (exec boot es).lastbuttonstate := fun hc => hc hne.symm
          rw [if_neg (not_not.mpr hne), if_neg hne2]
          exact h4
        · have hne2 : pin ≠ (exec boot es).lastbuttonstate := fun hc => hne hc.symm
          rw [if_pos hne, if_pos hne2, hw]
          simp
    | tick =>
      have hc : (timer_isr (exec boot es)).count = (exec boot es).count + 1 := by
        show wrapLong ((exec boot es).count + 1) = (exec boot es).count + 1
        unfold wrapLong
        omega
      show 0 ≤ (timer_isr (exec boot es)).ldtime ∧
        (timer_isr (exec boot es)).ldtime ≤ (timer_isr (exec boot es)).count ∧
        (timer_isr (exec boot es)).count ≤ 32767 ∧
        (timer_isr (exec boot es)).lastbuttonstate =
          ((es ++ [Event.tick]).foldl windowStep (GPIO_INPUT_PIN_LOW, 0)).1 ∧
        (timer_isr (exec boot es)).count - (timer_isr (exec boot es)).ldtime =
          (ticksSinceRestart (es ++ [Event.tick]) : Int)
      have hfull2 : (timer_isr (exec boot es)).count ≤ 32767 := hfull
      rw [hc] at hfull2 ⊢
      have hl : (timer_isr (exec boot es)).ldtime = (exec boot es).ldtime := rfl
      have hlb : (timer_isr (exec boot es)).lastbuttonstate =
          (exec boot es).lastbuttonstate := rfl
      have hg : ticksSinceRestart (es ++ [Event.tick]) = ticksSinceRestart es + 1 := by
        simp [ticksSinceRestart, List.foldl_append, windowStep]
      rw [hl, hlb, hg]
      refine ⟨h0, by omega, hfull2, ?_, ?_⟩
      · rw [h3]
        simp [List.foldl_append, windowStep]
      · push_cast
        omega

/-- C17. Exact elapsed time in the `int` range: in every run of loop passes
and timer interrupts from boot in which `count` stays within 0..32767,
`ldtime` satisfies `0 ≤ ldtime ≤ count`, and in a loop pass the value that
line 90 computes for `count - ldtime` is the exact difference (nothing
overflows or is truncated) and equals the true number of ticks elapsed since
the pass that last restarted the window (that pass itself included; since
boot if no pass has). -/
theorem exact_elapsed_within_int_range (es : List Event)
    (h : ∀ n, (exec boot (es.take n)).count ≤ INT_MAX) :
    0 ≤ (exec boot es).count ∧
    0 ≤ (exec boot es).ldtime ∧ (exec boot es).ldtime ≤ (exec boot es).count ∧
    ∀ pin : Nat,
      (loopBody (exec boot es) pin).ldtime ≤ (exec boot es).count ∧
      0 ≤ (loopBody (exec boot es) pin).ldtime ∧
      elapsed (exec boot es) ((exec boot es).count, pin) =
        (exec boot es).count - (loopBody (exec boot es) pin).ldtime ∧
      elapsed (exec boot es) ((exec boot es).count, pin) =
        (ticksSinceRestart (es ++ [Event.loop pin]) : Int) := by
  obtain ⟨h0, h1, h2, -, -⟩ := window_invariant es h
  refine ⟨le_trans h0 h1, h0, h1, fun pin => ?_⟩
  have hsn : ∀ n, (exec boot ((es ++ [Event.loop pin]).take n)).count ≤ INT_MAX := by
    intro n
    rcases Nat.le_total n es.length with hn | hn
    · rw [List.take_append_of_le_length hn]
      exact h n
    · have hlen : (es ++ [Event.loop pin]).length ≤ n + 1 := by
        rw [List.length_append, List.length_singleton]
        omega
      rcases Nat.lt_or_ge es.length n with hlt | hge
      · rw [List.take_of_length_le (by
          rw [List.length_append, List.length_singleton]
          omega), exec_snoc]
        show (loopBody (exec boot es) pin).count ≤ INT_MAX
        rw [loopBody_count]
        exact h2
      · have hn' : n = es.length := le_antisymm hge hn
        rw [hn', List.take_left]
        exact h2
  obtain ⟨g0, g1, -, -, g4⟩ := window_invariant (es ++ [Event.loop pin]) hsn
  rw [exec_snoc] at g0 g1 g4
  have e1 : step (exec boot es) (Event.loop pin) = loopBody (exec boot es) pin := rfl
  rw [e1] at g0 g1 g4
  rw [loopBody_count] at g1 g4
  have hel : elapsed (exec boot es) ((exec boot es).count, pin) =
      wrapLong ((exec boot es).count - (loopBody (exec boot es) pin).ldtime) := by
    rw [elapsed_eq, ← loopBody_eq_iteration]
  have hexact : wrapLong ((exec boot es).count - (loopBody (exec boot es) pin).ldtime) =
      (exec boot es).count - (loopBody (exec boot es) pin).ldtime := by
    unfold INT_MAX at h2
    unfold wrapLong
    omega
  refine ⟨g1, g0, hel.trans hexact, ?_⟩
  rw [hel, hexact]
  exact g4

/-- Witness of C17: a press seen in the pass after two ticks, then three more
ticks; `ldtime` is 2, `count` is 5, and the next pass that still reads HIGH
computes 3 elapsed ticks on line 90. -/
theorem exact_elapsed_within_int_range_witness :
    (exec boot [Event.tick, Event.tick, Event.loop 1, Event.tick, Event.tick,
      Event.tick]).ldtime = 2 ∧
    (exec boot [Event.tick, Event.tick, Event.loop 1, Event.tick, Event.tick,
      Event.tick]).count = 5 ∧
    elapsed (exec boot [Event.tick, Event.tick, Event.loop 1, Event.tick, Event.tick,
      Event.tick]) ((exec boot [Event.tick, Event.tick, Event.loop 1, Event.tick,
      Event.tick, Event.tick]).count, 1) = 3 ∧
    elapsed (exec boot [Event.tick, Event.tick, Event.loop 1, Event.tick, Event.tick,
      Event.tick]) ((exec boot [Event.tick, Event.tick, Event.loop 1, Event.tick,
      Event.tick, Event.tick]).count, 1) =
      (ticksSinceRestart ([Event.tick, Event.tick, Event.loop 1, Event.tick, Event.tick,
        Event.tick] ++ [Event.loop 1]) : Int) :=
  ⟨by decide, by decide, by decide,
   ((exact_elapsed_within_int_range [Event.tick, Event.tick, Event.loop 1, Event.tick,
      Event.tick, Event.tick] (by
        intro n
        rcases Nat.lt_or_ge n 7 with hn | hn
        · interval_cases n <;> decide
        · rw [List.take_of_length_le (le_trans (by decide) hn)]
          decide)).2.2.2 1).2.2.2⟩

end Debounce
